import Mathlib

/-!
# Verification of webmunk-lists (`src/list-utilities.mts`)

A shallow embedding of the list-management module: the persistent store of
list entries, the CRUD operations, the backend merge engine, import, and the
URL pattern matcher.  External collaborators (the browser's URL parser, the
`psl` registrable-domain resolver, and the JavaScript regular-expression
engine) are modelled as function parameters: the embedded code consumes them
exactly where the source does.

Machine conventions:
* `Date.now()` timestamps are passed explicitly as a `now : Nat` argument.
* A JavaScript value that may be absent (`undefined`) is an `Option`.
* Operations that can reject (throw) return `Except String _`; rejection of
  an IndexedDB request aborts the surrounding transaction, so an error
  result carries no partial state.
-/

deriving instance DecidableEq for Except

namespace WebmunkLists

-- ============================================================================
-- Types (from `list-utilities.mts` lines 17-36)
-- ============================================================================

inductive PatternType where
  | domain
  | host
  | exact_url
  | host_path_pref
  | regex
deriving DecidableEq, Repr

inductive EntrySource where
  | backend
  | user
  | generated
deriving DecidableEq, Repr

/-- The open `metadata` mapping.  The reserved keys used by the module are
first-class; every other key/value pair lives in `other`. -/
structure Metadata where
  created_at : Option Nat := none
  updated_at : Option Nat := none
  sync_timestamp : Option Nat := none
  other : List (String × String) := []
deriving DecidableEq, Repr

def emptyMetadata : Metadata := {}

/-- A persisted `ListEntry`.  `source` is an `Option` because at runtime an
entry object may lack the field entirely (e.g. entries built by
`importList`, which never sets `source`). -/
structure ListEntry where
  id : Nat
  list_name : String
  domain : String
  pattern_type : PatternType
  source : Option EntrySource
  metadata : Metadata
deriving DecidableEq, Repr

/-- An entry as handed to the insert paths, i.e. `Omit<ListEntry, 'id'>`: an entry as handed to the insert paths. -/
structure NewEntry where
  list_name : String
  domain : String
  pattern_type : PatternType
  source : Option EntrySource
  metadata : Metadata
deriving DecidableEq, Repr

/-- The `(list_name, pattern_type, domain)` triple backing the unique
`list_name_pattern_type_domain` index. -/
abbrev EntryKey := String × PatternType × String

def entryKey (e : ListEntry) : EntryKey := (e.list_name, e.pattern_type, e.domain)

def newKey (e : NewEntry) : EntryKey := (e.list_name, e.pattern_type, e.domain)

/-- The IndexedDB object store `list_entries`: records in ascending primary
key order plus the auto-increment counter. -/
structure Store where
  entries : List ListEntry
  nextId : Nat
deriving DecidableEq, Repr

def keysOf (s : Store) : List EntryKey := s.entries.map entryKey

-- ============================================================================
-- String helpers (structural recursion, so the kernel can evaluate them)
-- ============================================================================

def listHasPrefix : List Char → List Char → Bool
  | _, [] => true
  | [], _ :: _ => false
  | c :: cs, p :: ps => c = p && listHasPrefix cs ps

def listHasSub : List Char → List Char → Bool
  | s, pat => listHasPrefix s pat ||
      match s with
      | [] => false
      | _ :: cs => listHasSub cs pat

/-- Embeds `s.includes(pat)`, the substring test used by the source. -/
def strHasSub (s pat : String) : Bool := listHasSub s.data pat.data

def strStartsWith (s p : String) : Bool := listHasPrefix s.data p.data

def strEndsWith (s p : String) : Bool := listHasPrefix s.data.reverse p.data.reverse

def strToLower (s : String) : String := ⟨s.data.map Char.toLower⟩

def isJsWhitespace (c : Char) : Bool :=
  c = ' ' || c = '\t' || c = '\n' || c = '\r' || c = '\x0c' || c = '\x0b'

/-- Embeds `String.prototype.trim()`. -/
def strTrim (s : String) : String :=
  ⟨((s.data.dropWhile isJsWhitespace).reverse.dropWhile isJsWhitespace).reverse⟩

/-- Split a string at the first occurrence of `pat`:
`some (before, after)` with `pat` itself dropped, or `none` if absent. -/
def splitSubAux (pat : List Char) : List Char → Option (List Char × List Char)
  | [] => if pat = [] then some ([], []) else none
  | c :: cs =>
      if listHasPrefix (c :: cs) pat then
        some ([], (c :: cs).drop pat.length)
      else
        match splitSubAux pat cs with
        | some (a, b) => some (c :: a, b)
        | none => none

def splitFirstSub (s pat : String) : Option (String × String) :=
  match splitSubAux pat.data s.data with
  | some (a, b) => some (⟨a⟩, ⟨b⟩)
  | none => none

/-- Embeds `pattern.split('/')[0] ?? ''`: the part before the first `/`. -/
def beforeFirstSlash (s : String) : String := ⟨s.data.takeWhile (· ≠ '/')⟩

/-- Embeds `pattern.slice` at the first slash when one exists: split a pattern into
its host part and its path part (path keeps the leading `/`). -/
def splitFirstSlash (s : String) : Option (String × String) :=
  if s.data.any (· = '/') then
    some (⟨s.data.takeWhile (· ≠ '/')⟩, ⟨s.data.dropWhile (· ≠ '/')⟩)
  else
    none

-- ============================================================================
-- Pattern validation (lines 48-71)
-- ============================================================================

/-- Embeds `normalizeLeadingWww`: lowercase, then strip one leading `www.`. -/
def normalizeLeadingWww (host : String) : String :=
  let l := strToLower host
  if strStartsWith l "www." then ⟨l.data.drop 4⟩ else l

/-- The external registrable-domain resolver (`psl.parse`): `some d` when
parsing succeeds with a non-null registrable domain field `d`; `none` when
`psl` reports an error or a null domain. -/
abbrev PslResolver := String → Option String

/-- The body of `isStrictRegisteredDomain` applied to the already-normalized
candidate: no `://` or `/`, the resolver must succeed with a non-empty
domain, and the candidate must equal that domain exactly. -/
def strictCheckCandidate (psl : PslResolver) (candidate : String) : Bool :=
  if strHasSub candidate "://" || candidate.data.any (· = '/') then false
  else
    match psl candidate with
    | none => false
    | some d => if d = "" then false else candidate = d

/-- Embeds `isStrictRegisteredDomain` (lines 59-71): the candidate, trimmed and
www-normalized, must contain no `://` or `/`, resolve, and equal its own
registrable domain exactly. -/
def isStrictRegisteredDomain (psl : PslResolver) (pattern : String) : Bool :=
  strictCheckCandidate psl (normalizeLeadingWww (strTrim pattern))

-- ============================================================================
-- Pattern matching (lines 782-900)
-- ============================================================================

/-- The parts of a parsed URL that the matcher reads (`new URL(x)`). -/
structure UrlParts where
  hostname : String
  pathname : String
deriving DecidableEq, Repr

/-- The external URL parser: `none` models `new URL` throwing. -/
abbrev UrlParser := String → Option UrlParts

/-- The external regular-expression engine: `none` models `new RegExp`
throwing on a malformed pattern; otherwise the compiled test function. -/
abbrev RegexEngine := String → Option (String → Bool)

/-- Lines 864-867: align the pattern path with `URL.pathname` by ensuring a
leading slash. -/
def ensureLeadingSlash (p : String) : String :=
  if strStartsWith p "/" then p else "/" ++ p

/-- The path comparison of the host_path_prefix case (lines 869-880): prefix
match, plus the trailing-slash concession — a pattern path ending in a slash
also matches the URL path equal to it minus that slash. -/
def pathPrefixMatches (urlPath patternPath₀ : String) : Bool :=
  let patternPath := ensureLeadingSlash patternPath₀
  if strStartsWith urlPath patternPath then true
  else if strEndsWith patternPath "/" then urlPath = ⟨patternPath.data.dropLast⟩
  else false

/-- The host-and-path comparison of the host_path_prefix case
(lines 859-880): normalized hosts must be non-empty and equal, then the path
rule applies. -/
def hostPathPrefixMatches (urlHostNormalized urlPath patternHost patternPath : String) :
    Bool :=
  let patternHostNormalized := normalizeLeadingWww patternHost
  if patternHostNormalized = "" || urlHostNormalized ≠ patternHostNormalized then false
  else pathPrefixMatches urlPath patternPath

/-- Embeds `matchesPattern` (lines 782-900).  Every `throw` point in the source is
caught (the outer `try`/inner regex `try`) and yields `false`; the embedding
is therefore a total `Bool` function. -/
def matchesPattern (up : UrlParser) (psl : PslResolver) (re : RegexEngine)
    (url pattern : String) (patternType : PatternType) : Bool :=
  match up url with
  | none => false
  | some urlObj =>
    let hostname := urlObj.hostname
    match patternType with
    | .domain =>
        if !isStrictRegisteredDomain psl pattern then false
        else
          match psl hostname with
          | none => false
          | some urlDomain =>
              if urlDomain = "" then false
              else urlDomain = normalizeLeadingWww (strTrim pattern)
    | .host =>
        let urlHostNormalized := normalizeLeadingWww hostname
        if strHasSub pattern "://" then
          match up pattern with
          | none => false
          | some patternUrl =>
              let patternHostNormalized := normalizeLeadingWww patternUrl.hostname
              if patternHostNormalized = "" then false
              else urlHostNormalized = patternHostNormalized
        else
          let patternHost :=
            if pattern.data.any (· = '/') then beforeFirstSlash pattern else pattern
          let patternHostNormalized := normalizeLeadingWww patternHost
          if patternHostNormalized = "" then false
          else urlHostNormalized = patternHostNormalized
    | .exact_url => url = pattern
    | .host_path_pref =>
        let hostPath : Option (String × String) :=
          if strHasSub pattern "://" then
            match up pattern with
            | none => none
            | some patternUrl => some (patternUrl.hostname, patternUrl.pathname)
          else
            splitFirstSlash pattern
        match hostPath with
        | none => false
        | some (patternHost, patternPath) =>
            hostPathPrefixMatches (normalizeLeadingWww hostname) urlObj.pathname
              patternHost patternPath
    | .regex =>
        match re pattern with
        | none => false
        | some test => test url

-- ============================================================================
-- CRUD operations (lines 178-430)
-- ============================================================================

/-- The `created_at: entry.metadata.created_at || Date.now()` idiom:
a missing value, and the JavaScript-falsy `0`, both default to `now`. -/
def createdAtOrNow (x : Option Nat) (now : Nat) : Nat :=
  match x with
  | some c => if c = 0 then now else c
  | none => now

/-- The timestamp stamping shared by `createListEntry` and
`bulkCreateListEntries` (lines 193-200 and 523-530). -/
def withTimestamps (e : NewEntry) (now : Nat) : NewEntry :=
  { e with metadata :=
      { e.metadata with
          created_at := some (createdAtOrNow e.metadata.created_at now)
          updated_at := some now } }

def toEntry (id : Nat) (e : NewEntry) : ListEntry :=
  { id := id, list_name := e.list_name, domain := e.domain,
    pattern_type := e.pattern_type, source := e.source, metadata := e.metadata }

/-- Embeds `store.add`: appends the record under the auto-increment key.  The caller
is responsible for the uniqueness check (modelled separately, as the unique
`list_name_pattern_type_domain` index performs it). -/
def storeAdd (s : Store) (e : NewEntry) : Store :=
  { entries := s.entries ++ [toEntry s.nextId e], nextId := s.nextId + 1 }

/-- Embeds `createListEntry` (lines 178-212): domain-strictness gate, then a single
`add` which rejects on a uniqueness violation. -/
def createListEntry (psl : PslResolver) (s : Store) (entry : NewEntry) (now : Nat) :
    Except String (Store × Nat) :=
  if entry.pattern_type = .domain && !isStrictRegisteredDomain psl entry.domain then
    .error "Invalid domain pattern"
  else if s.entries.any (fun x => entryKey x = newKey (withTimestamps entry now)) then
    .error "Failed to create entry: uniqueness violation"
  else
    .ok (storeAdd s (withTimestamps entry now), s.nextId)

/-- A `Partial<ListEntry>` as accepted by `updateListEntry`; a `none` field is
an absent key. -/
structure EntryUpdates where
  list_name : Option String := none
  domain : Option String := none
  pattern_type : Option PatternType := none
  source : Option EntrySource := none
  metadata : Option Metadata := none
deriving Repr

/-- The metadata merge `{...entry.metadata, ...updates.metadata}`:
keys present in the update override the entry's. -/
def mergeMetadata (base : Metadata) (upd : Option Metadata) : Metadata :=
  match upd with
  | none => base
  | some u =>
      { created_at := u.created_at.orElse fun _ => base.created_at
        updated_at := u.updated_at.orElse fun _ => base.updated_at
        sync_timestamp := u.sync_timestamp.orElse fun _ => base.sync_timestamp
        other := u.other ++ base.other.filter (fun kv => u.other.all (·.1 ≠ kv.1)) }

/-- The `updatedEntry` object of lines 321-330: the update fields spread
over the entry, the id forced, the metadata merged per-key with
`updated_at` refreshed. -/
def updatedEntryOf (entry : ListEntry) (id : Nat) (updates : EntryUpdates)
    (now : Nat) : ListEntry :=
  { id := id
    list_name := updates.list_name.getD entry.list_name
    domain := updates.domain.getD entry.domain
    pattern_type := updates.pattern_type.getD entry.pattern_type
    source := match updates.source with
      | some src => some src
      | none => entry.source
    metadata :=
      { mergeMetadata entry.metadata updates.metadata with updated_at := some now } }

/-- Embeds `updateListEntry` (lines 293-347): fetch by id, re-validate the effective
domain pattern, merge fields, refresh `updated_at`, `put` (which rejects if
the new key collides with a different record in the unique index). -/
def updateListEntry (psl : PslResolver) (s : Store) (id : Nat) (updates : EntryUpdates)
    (now : Nat) : Except String Store :=
  match s.entries.find? (fun e => e.id = id) with
  | none => .error "Entry not found"
  | some entry =>
      if updates.pattern_type.getD entry.pattern_type = .domain
          && !isStrictRegisteredDomain psl (updates.domain.getD entry.domain) then
        .error "Invalid domain pattern"
      else if s.entries.any (fun x =>
          x.id ≠ id && entryKey x = entryKey (updatedEntryOf entry id updates now)) then
        .error "Failed to update entry: uniqueness violation"
      else
        .ok { s with entries :=
                s.entries.map (fun x =>
                  if x.id = id then updatedEntryOf entry id updates now else x) }

/-- Embeds `deleteListEntry` (lines 352-372): delete by primary key; deleting a
missing id is not an error. -/
def deleteListEntry (s : Store) (id : Nat) : Store :=
  { s with entries := s.entries.filter (fun e => e.id ≠ id) }

/-- Embeds `deleteAllEntriesInList` (lines 378-430): cursor over the `list_name`
index, or over the `list_name_source` compound index when a source filter is
given (that index omits entries whose `source` is absent). -/
def deleteAllEntriesInList (s : Store) (listName : String)
    (sourceFilter : Option EntrySource) : Store :=
  match sourceFilter with
  | some src =>
      { s with entries :=
          s.entries.filter (fun e => !(e.list_name = listName && e.source = some src)) }
  | none =>
      { s with entries := s.entries.filter (fun e => e.list_name ≠ listName) }

/-- Embeds `findListEntryByPattern` (lines 463-484): `index.get` on the unique
compound index returns the record with the lowest primary key at that key;
entries are stored in ascending id order, so it is the first match. -/
def findListEntryByPattern (s : Store) (listName : String) (patternType : PatternType)
    (domain : String) : Option ListEntry :=
  s.entries.find? (fun e => entryKey e = (listName, patternType, domain))

-- ============================================================================
-- Bulk operations (lines 513-607)
-- ============================================================================

/-- Would the sequence of `add`s succeed?  Each record's key must be absent
from the store and from the records queued before it. -/
def bulkAddOk (ks : List EntryKey) : List NewEntry → Bool
  | [] => true
  | e :: rest =>
      if newKey e ∈ ks then false else bulkAddOk (newKey e :: ks) rest

def assignIds (n : Nat) : List NewEntry → List ListEntry
  | [] => []
  | e :: rest => toEntry n e :: assignIds (n + 1) rest

def insertAll (s : Store) (es : List NewEntry) (now : Nat) : Store :=
  { entries := s.entries ++ assignIds s.nextId (es.map (withTimestamps · now))
    nextId := s.nextId + es.length }

/-- Embeds `bulkCreateListEntries` (lines 513-553): stamps timestamps and queues all
`add`s in one transaction.  It performs NO pattern validation.  An error on
any `add` (a uniqueness violation) aborts the transaction, so nothing from
the batch is committed. -/
def bulkCreateListEntries (s : Store) (es : List NewEntry) (now : Nat) :
    Except String Store :=
  if bulkAddOk (keysOf s) (es.map (withTimestamps · now)) then
    .ok (insertAll s es now)
  else
    .error "Failed to create bulk entry: uniqueness violation"

/-- One record of an import file's `entries` array. -/
structure ImportEntry where
  domain : String
  pattern_type : PatternType
  metadata : Option Metadata := none
deriving Repr

/-- The entry object `importList` builds for each imported record
(lines 592-597): note that NO `source` field is set. -/
def importToNewEntry (listName : String) (ie : ImportEntry) : NewEntry :=
  { list_name := listName
    domain := ie.domain
    pattern_type := ie.pattern_type
    source := none
    metadata := ie.metadata.getD emptyMetadata }

/-- Embeds `importList` (lines 580-607).  The JSON text is modelled post-parse:
`none` is unparseable JSON or a payload without an `entries` array; both
throw before any mutation.  Otherwise: clear the whole target list (no
source filter), then bulk-insert the file's entries. -/
def importList (s : Store) (listName : String) (jsonData : Option (List ImportEntry))
    (now : Nat) : Except String (Store × Nat) :=
  match jsonData with
  | none => .error "Failed to import list: invalid import data"
  | some importEntries =>
      match bulkCreateListEntries (deleteAllEntriesInList s listName none)
          (importEntries.map (importToNewEntry listName)) now with
      | .ok s' => .ok (s', (importEntries.map (importToNewEntry listName)).length)
      | .error msg => .error msg

-- ============================================================================
-- Backend merge (lines 698-772)
-- ============================================================================

/-- A raw backend configuration entry (`any` in the source): fields may be
missing. -/
structure Candidate where
  domain : Option String := none
  pattern_type : Option PatternType := none
  metadata : Option Metadata := none
deriving DecidableEq, Repr

/-- The `(listName, patternType, domain)` key a candidate would occupy, when
it has a usable non-empty domain string and a pattern type (the checks of
the conflict-resolution loop, lines 717-718). -/
def candKey (listName : String) (c : Candidate) : Option EntryKey :=
  match c.domain, c.pattern_type with
  | some d, some pt => if d = "" then none else some (listName, pt, d)
  | _, _ => none

/-- The conflict-resolution loop (lines 713-731): for each candidate with a
usable key, delete the existing entry found at that key, if any. -/
def resolveConflicts (s : Store) (listName : String) : List Candidate → Store
  | [] => s
  | c :: rest =>
      match candKey listName c with
      | none => resolveConflicts s listName rest
      | some (ln, pt, d) =>
          match findListEntryByPattern s ln pt d with
          | none => resolveConflicts s listName rest
          | some existing => resolveConflicts (deleteListEntry s existing.id) listName rest

/-- The validation filter of the preparation loop (lines 736-751): a usable
domain string and pattern type, and strict-domain validity when the type is
`domain`. -/
def candidateValid (psl : PslResolver) (c : Candidate) : Bool :=
  match c.domain, c.pattern_type with
  | some d, some pt =>
      if d = "" then false
      else if pt = .domain && !isStrictRegisteredDomain psl d then false
      else true
  | _, _ => false

/-- The backend entry built for a surviving candidate (lines 753-762). -/
def toBackendEntry (listName d : String) (pt : PatternType) (m : Option Metadata)
    (now : Nat) : NewEntry :=
  { list_name := listName
    domain := d
    pattern_type := pt
    source := some .backend
    metadata := { m.getD emptyMetadata with sync_timestamp := some now } }

/-- The `newEntries` array accumulated by the preparation loop
(lines 734-763): entries are skipped when the domain string is unusable or
empty, or when a domain-type pattern fails the strict check. -/
def backendNewEntries (psl : PslResolver) (listName : String) :
    List Candidate → Nat → List NewEntry
  | [], _ => []
  | c :: rest, now =>
      match c.domain, c.pattern_type with
      | some d, some pt =>
          if d = "" then backendNewEntries psl listName rest now
          else if pt = .domain && !isStrictRegisteredDomain psl d then
            backendNewEntries psl listName rest now
          else toBackendEntry listName d pt c.metadata now ::
            backendNewEntries psl listName rest now
      | _, _ => backendNewEntries psl listName rest now

/-- Steps 3-4 of the merge: skip an empty prepared batch, otherwise bulk
insert it; a rejected bulk insert rolls back its own transaction but leaves
the deletions of steps 1-2 committed. -/
def mergeInsertPhase (psl : PslResolver) (s2 : Store) (listName : String)
    (entries : List Candidate) (now : Nat) : Store × Bool :=
  if (backendNewEntries psl listName entries now).isEmpty then (s2, true)
  else
    match bulkCreateListEntries s2 (backendNewEntries psl listName entries now) now with
    | .ok s3 => (s3, true)
    | .error _ => (s2, false)

/-- Steps 1-2 of the merge: delete the list's backend entries, then run the
conflict-resolution loop. -/
def mergeResolved (psl : PslResolver) (s : Store) (listName : String)
    (entries : List Candidate) : Store :=
  resolveConflicts (deleteAllEntriesInList s listName (some .backend)) listName entries

/-- Embeds `mergeBackendList` (lines 698-772).  Returns the resulting store and a
success flag: `false` means the final bulk insert rejected. -/
def mergeBackendList (psl : PslResolver) (s : Store) (listName : String)
    (entries : List Candidate) (now : Nat) : Store × Bool :=
  mergeInsertPhase psl (mergeResolved psl s listName entries) listName entries now

-- ============================================================================
-- Store well-formedness: the schema's uniqueness guarantees
-- ============================================================================

/-- Distinctness of two records as the schema guarantees it: different
primary keys and different unique-index keys. -/
def entryRel (a b : ListEntry) : Prop := a.id ≠ b.id ∧ entryKey a ≠ entryKey b

instance : DecidableRel entryRel := fun a b => by
  unfold entryRel
  infer_instance

lemma entryRel_symm : Symmetric entryRel := fun _ _ h => ⟨Ne.symm h.1, Ne.symm h.2⟩

/-- The invariants the IndexedDB schema enforces on every reachable store:
distinct primary keys, distinct `(list_name, pattern_type, domain)` keys
(the unique compound index), and primary keys below the auto-increment
counter. -/
def WF (s : Store) : Prop :=
  s.entries.Pairwise entryRel ∧ ∀ e ∈ s.entries, e.id < s.nextId

instance : DecidablePred WF := fun s => by
  unfold WF
  infer_instance

-- ============================================================================
-- Concrete instances of the external collaborators, for evaluation
-- ============================================================================

/-- A tiny concrete registrable-domain resolver covering the hostnames used
in the specification's examples (all under the plain `com` public suffix). -/
def samplePsl : PslResolver := fun h =>
  if h = "google.com" || h = "mail.google.com" || h = "www.google.com" then
    some "google.com"
  else if h = "example.com" || h = "www.example.com" || h = "sub.example.com" then
    some "example.com"
  else
    none

/-- A tiny concrete absolute-URL parser: `scheme://host[/path]`, hostname
lowercased, pathname defaulting to `/`. -/
def sampleUrlParse : UrlParser := fun s =>
  match splitFirstSub s "://" with
  | none => none
  | some (scheme, rest) =>
      if scheme = "" then none
      else
        let host := ⟨rest.data.takeWhile (· ≠ '/')⟩
        let path : String := ⟨rest.data.dropWhile (· ≠ '/')⟩
        if host = "" then none
        else some { hostname := strToLower host, pathname := if path = "" then "/" else path }

/-- A regex engine on which every pattern fails to compile. -/
def sampleRegexFail : RegexEngine := fun _ => none

-- ============================================================================
-- Lemmas about the pattern matcher
-- ============================================================================

lemma strictCheck_spec (psl : PslResolver) (candidate : String)
    (h : strictCheckCandidate psl candidate = true) :
    ∃ d, psl candidate = some d ∧ d ≠ "" ∧ candidate = d := by
  unfold strictCheckCandidate at h
  split at h
  · exact absurd h (by simp)
  · cases hp : psl candidate with
    | none => rw [hp] at h; exact absurd h (by simp)
    | some d =>
        rw [hp] at h
        simp only [] at h
        by_cases hd : d = ""
        · simp [hd] at h
        · rw [if_neg hd] at h
          exact ⟨d, rfl, hd, by simpa using h⟩

lemma strict_candidate_ne_empty (psl : PslResolver) (pattern : String)
    (h : isStrictRegisteredDomain psl pattern = true) :
    normalizeLeadingWww (strTrim pattern) ≠ "" := by
  unfold isStrictRegisteredDomain at h
  obtain ⟨d, _, hd, hcd⟩ := strictCheck_spec psl _ h
  rw [hcd]
  exact hd

/-- C4 both operational parts: a URL that fails to parse matches nothing,
and a regex pattern that fails to compile matches nothing. -/
lemma matchesPattern_url_parse_fail (up : UrlParser) (psl : PslResolver)
    (re : RegexEngine) (url pattern : String) (pt : PatternType)
    (h : up url = none) : matchesPattern up psl re url pattern pt = false := by
  unfold matchesPattern
  rw [h]

lemma matchesPattern_regex_fail (up : UrlParser) (psl : PslResolver)
    (re : RegexEngine) (url pattern : String)
    (h : re pattern = none) : matchesPattern up psl re url pattern .regex = false := by
  unfold matchesPattern
  cases hu : up url with
  | none => rfl
  | some u => simp [h]

-- ============================================================================
-- Claim theorems: the pattern matcher (C4, C5, C8)
-- ============================================================================

/-- C4: matchesPattern is a total boolean function (every throwing path of
the source is caught): a URL that is not a syntactically valid absolute URL
(the URL parser rejects it) yields false for every pattern and pattern type,
and a regex pattern that fails to compile yields false rather than an
error. -/
theorem matchesPattern_never_throws (up : UrlParser) (psl : PslResolver)
    (re : RegexEngine) (url pattern : String) (pt : PatternType) :
    (up url = none → matchesPattern up psl re url pattern pt = false) ∧
    (re pattern = none → matchesPattern up psl re url pattern .regex = false) :=
  ⟨matchesPattern_url_parse_fail up psl re url pattern pt,
   matchesPattern_regex_fail up psl re url pattern⟩

/-- Witness for C4 at concrete inputs: a malformed URL never matches, and a
pattern the regex engine rejects never matches. -/
theorem matchesPattern_never_throws_witness :
    sampleUrlParse "anything" = none ∧
    matchesPattern sampleUrlParse samplePsl sampleRegexFail "anything" "x"
      PatternType.domain = false ∧
    sampleRegexFail "(" = none ∧
    matchesPattern sampleUrlParse samplePsl sampleRegexFail "https://example.com/" "("
      PatternType.regex = false :=
  ⟨by decide,
   (matchesPattern_never_throws sampleUrlParse samplePsl sampleRegexFail
      "anything" "x" PatternType.domain).1 (by decide),
   rfl,
   (matchesPattern_never_throws sampleUrlParse samplePsl sampleRegexFail
      "https://example.com/" "(" PatternType.regex).2 rfl⟩

/-- C5: for patternType domain, a pattern that is not a strict registrable
domain never matches, independent of the URL; otherwise the match holds iff
the registrable domain of the parsed URL hostname equals the trimmed,
www-stripped, lowercased pattern. -/
theorem matchesPattern_domain_spec (up : UrlParser) (psl : PslResolver)
    (re : RegexEngine) (url pattern : String) :
    (isStrictRegisteredDomain psl pattern = false →
      matchesPattern up psl re url pattern .domain = false) ∧
    (∀ u, up url = some u → isStrictRegisteredDomain psl pattern = true →
      (matchesPattern up psl re url pattern .domain = true ↔
        psl u.hostname = some (normalizeLeadingWww (strTrim pattern)))) := by
  constructor
  · intro h
    unfold matchesPattern
    cases hu : up url with
    | none => rfl
    | some u => simp [h]
  · intro u hu hstrict
    have hne := strict_candidate_ne_empty psl pattern hstrict
    unfold matchesPattern
    rw [hu]
    simp only [hstrict, Bool.not_true, Bool.false_eq_true, if_false]
    cases hd : psl u.hostname with
    | none => simp
    | some d =>
        by_cases hde : d = ""
        · subst hde
          simp [Ne.symm hne]
        · simp [hde, eq_comm]

/-- Witness for C5: the spec example — the pattern google.com of type domain
matches a mail.google.com URL. -/
theorem matchesPattern_domain_spec_witness :
    isStrictRegisteredDomain samplePsl "google.com" = true ∧
    matchesPattern sampleUrlParse samplePsl sampleRegexFail
      "https://mail.google.com/inbox" "google.com" PatternType.domain = true :=
  ⟨by decide,
   ((matchesPattern_domain_spec sampleUrlParse samplePsl sampleRegexFail
      "https://mail.google.com/inbox" "google.com").2
      { hostname := "mail.google.com", pathname := "/inbox" }
      (by decide) (by decide)).mpr (by decide)⟩

lemma hostPathPrefixMatches_hosts_match (urlHostN upath ph ppath : String)
    (hne : normalizeLeadingWww ph ≠ "") (hhost : urlHostN = normalizeLeadingWww ph) :
    hostPathPrefixMatches urlHostN upath ph ppath = pathPrefixMatches upath ppath := by
  unfold hostPathPrefixMatches
  simp [hhost, hne]

lemma pathPrefixMatches_iff (upath pp : String) :
    pathPrefixMatches upath pp = true ↔
      (strStartsWith upath (ensureLeadingSlash pp) = true ∨
       (strEndsWith (ensureLeadingSlash pp) "/" = true ∧
        upath = ⟨(ensureLeadingSlash pp).data.dropLast⟩)) := by
  unfold pathPrefixMatches
  by_cases h1 : strStartsWith upath (ensureLeadingSlash pp) = true
  · simp [h1]
  · by_cases h2 : strEndsWith (ensureLeadingSlash pp) "/" = true
    · simp [h1, h2]
    · simp [h1, h2]

/-- C8: host_path_prefix semantics.  For a non-URL pattern: no slash means no
match; with a slash and matching normalized hosts, the match holds iff the
URL path has the pattern path (given its leading slash) as a prefix, or the
pattern path ends in a slash and the URL path equals it minus that slash.  A
full-URL pattern follows the same path rule with its parsed pathname. -/
theorem matchesPattern_host_path_pref_spec (up : UrlParser) (psl : PslResolver)
    (re : RegexEngine) (url pattern : String) (u : UrlParts) (hu : up url = some u) :
    (strHasSub pattern "://" = false → splitFirstSlash pattern = none →
      matchesPattern up psl re url pattern .host_path_pref = false) ∧
    (∀ ph pp, strHasSub pattern "://" = false → splitFirstSlash pattern = some (ph, pp) →
      normalizeLeadingWww ph ≠ "" →
      normalizeLeadingWww u.hostname = normalizeLeadingWww ph →
      (matchesPattern up psl re url pattern .host_path_pref = true ↔
        (strStartsWith u.pathname (ensureLeadingSlash pp) = true ∨
         (strEndsWith (ensureLeadingSlash pp) "/" = true ∧
          u.pathname = ⟨(ensureLeadingSlash pp).data.dropLast⟩)))) ∧
    (∀ pu, strHasSub pattern "://" = true → up pattern = some pu →
      normalizeLeadingWww pu.hostname ≠ "" →
      normalizeLeadingWww u.hostname = normalizeLeadingWww pu.hostname →
      (matchesPattern up psl re url pattern .host_path_pref = true ↔
        (strStartsWith u.pathname (ensureLeadingSlash pu.pathname) = true ∨
         (strEndsWith (ensureLeadingSlash pu.pathname) "/" = true ∧
          u.pathname = ⟨(ensureLeadingSlash pu.pathname).data.dropLast⟩)))) := by
  refine ⟨?_, ?_, ?_⟩
  · intro hsub hsplit
    unfold matchesPattern
    rw [hu]
    simp [hsub, hsplit]
  · intro ph pp hsub hsplit hne hhost
    unfold matchesPattern
    rw [hu]
    simp only [hsub, Bool.false_eq_true, if_false, hsplit]
    rw [hostPathPrefixMatches_hosts_match _ _ _ _ hne hhost]
    exact pathPrefixMatches_iff u.pathname pp
  · intro pu hsub hpu hne hhost
    unfold matchesPattern
    rw [hu]
    simp only [hsub, if_true, hpu]
    rw [hostPathPrefixMatches_hosts_match _ _ _ _ hne hhost]
    exact pathPrefixMatches_iff u.pathname pu.pathname

/-- Witness for C8: the spec examples — example.com/maps matches the URL
path /maps/dir but not /map, and a slashless pattern never matches. -/
theorem matchesPattern_host_path_pref_witness :
    matchesPattern sampleUrlParse samplePsl sampleRegexFail
      "https://example.com/maps/dir" "example.com/maps" PatternType.host_path_pref = true ∧
    matchesPattern sampleUrlParse samplePsl sampleRegexFail
      "https://example.com/map" "example.com/maps" PatternType.host_path_pref = false ∧
    matchesPattern sampleUrlParse samplePsl sampleRegexFail
      "https://example.com/maps" "example" PatternType.host_path_pref = false :=
  ⟨((matchesPattern_host_path_pref_spec sampleUrlParse samplePsl sampleRegexFail
      "https://example.com/maps/dir" "example.com/maps"
      { hostname := "example.com", pathname := "/maps/dir" } (by decide)).2.1
      "example.com" "/maps" (by decide) (by decide) (by decide) (by decide)).mpr
      (Or.inl (by decide)),
   by decide,
   (matchesPattern_host_path_pref_spec sampleUrlParse samplePsl sampleRegexFail
      "https://example.com/maps" "example"
      { hostname := "example.com", pathname := "/maps" } (by decide)).1
      (by decide) (by decide)⟩

-- ============================================================================
-- Lemmas about the store operations
-- ============================================================================

/-- The observable core of a persisted entry: everything except the
surrogate id and the metadata. -/
def entryObs (e : ListEntry) : String × PatternType × String × Option EntrySource :=
  (e.list_name, e.pattern_type, e.domain, e.source)

def newObs (e : NewEntry) : String × PatternType × String × Option EntrySource :=
  (e.list_name, e.pattern_type, e.domain, e.source)

lemma newKey_withTimestamps (e : NewEntry) (now : Nat) :
    newKey (withTimestamps e now) = newKey e := rfl

lemma newObs_withTimestamps (e : NewEntry) (now : Nat) :
    newObs (withTimestamps e now) = newObs e := rfl

lemma assignIds_map_key (n : Nat) (es : List NewEntry) :
    (assignIds n es).map entryKey = es.map newKey := by
  induction es generalizing n with
  | nil => rfl
  | cons e rest ih => simp [assignIds, ih]; rfl

lemma assignIds_map_obs (n : Nat) (es : List NewEntry) :
    (assignIds n es).map entryObs = es.map newObs := by
  induction es generalizing n with
  | nil => rfl
  | cons e rest ih => simp [assignIds, ih]; rfl

lemma mem_assignIds_metadata (n : Nat) (es : List NewEntry) (en : ListEntry)
    (h : en ∈ assignIds n es) : ∃ e0 ∈ es, en.metadata = e0.metadata ∧
      en.list_name = e0.list_name ∧ en.pattern_type = e0.pattern_type ∧
      en.domain = e0.domain ∧ en.source = e0.source := by
  induction es generalizing n with
  | nil => cases h
  | cons e rest ih =>
      simp only [assignIds] at h
      rcases List.mem_cons.mp h with h | h
      · subst h
        exact ⟨e, List.mem_cons_self e rest, rfl, rfl, rfl, rfl, rfl⟩
      · obtain ⟨e0, he0, hrest⟩ := ih (n + 1) h
        exact ⟨e0, List.mem_cons_of_mem e he0, hrest⟩

lemma bulk_ok_eq (s : Store) (es : List NewEntry) (now : Nat) (s' : Store)
    (h : bulkCreateListEntries s es now = .ok s') : s' = insertAll s es now := by
  unfold bulkCreateListEntries at h
  split at h
  · exact (Except.ok.inj h).symm
  · cases h

lemma createdAtOrNow_le (x : Option Nat) (now : Nat)
    (h : ∀ c, x = some c → c ≤ now) : createdAtOrNow x now ≤ now := by
  cases x with
  | none => exact Nat.le_refl now
  | some c =>
      unfold createdAtOrNow
      by_cases hc : c = 0
      · simp [hc]
      · simp [hc]
        exact h c rfl

-- ============================================================================
-- Claim theorems: domain strictness on the write paths (C3)
-- ============================================================================

/-- Counterexample to C3 as stated: bulkCreateListEntries performs no domain
validation, so a batch entry of type domain with the non-registrable pattern
mail.google.com is accepted and persisted without any error. -/
theorem bulkCreate_skips_domain_validation_cex :
    isStrictRegisteredDomain samplePsl "mail.google.com" = false ∧
    bulkCreateListEntries { entries := [], nextId := 0 }
      [{ list_name := "L", domain := "mail.google.com", pattern_type := PatternType.domain,
         source := some EntrySource.user, metadata := {} }] 7
      = .ok { entries := [{ id := 0, list_name := "L", domain := "mail.google.com",
                            pattern_type := PatternType.domain,
                            source := some EntrySource.user,
                            metadata := { created_at := some 7, updated_at := some 7 } }],
              nextId := 1 } := by
  constructor
  · decide
  · decide

/-- C3 amended: single insert and update enforce domain strictness — an
effective domain-type entry with a non-strict pattern fails with a
validation error and is never persisted, and a bare registrable domain
succeeds — but batch insert performs no domain validation at all: it
commits any batch subject only to key uniqueness. -/
theorem insert_update_domain_strictness (psl : PslResolver) :
    (∀ s (e : NewEntry) now, e.pattern_type = PatternType.domain →
      isStrictRegisteredDomain psl e.domain = false →
      createListEntry psl s e now = .error "Invalid domain pattern") ∧
    (∀ s id (u : EntryUpdates) now entry,
      s.entries.find? (fun x => x.id = id) = some entry →
      u.pattern_type.getD entry.pattern_type = PatternType.domain →
      isStrictRegisteredDomain psl (u.domain.getD entry.domain) = false →
      updateListEntry psl s id u now = .error "Invalid domain pattern") ∧
    (∀ s (e : NewEntry) now, e.pattern_type = PatternType.domain →
      isStrictRegisteredDomain psl e.domain = true →
      (∀ x ∈ s.entries, entryKey x ≠ newKey e) →
      createListEntry psl s e now = .ok (storeAdd s (withTimestamps e now), s.nextId)) ∧
    (∀ s (es : List NewEntry) now,
      bulkAddOk (keysOf s) (es.map (withTimestamps · now)) = true →
      bulkCreateListEntries s es now = .ok (insertAll s es now)) := by
  refine ⟨?_, ?_, ?_, ?_⟩
  · intro s e now hpt hstrict
    unfold createListEntry
    simp [hpt, hstrict]
  · intro s id u now entry hfind hpt hstrict
    unfold updateListEntry
    rw [hfind]
    simp [hpt, hstrict]
  · intro s e now hpt hstrict hnodup
    unfold createListEntry
    simp only [hpt, hstrict, Bool.not_true, Bool.and_false, Bool.false_eq_true, if_false]
    have hany : (s.entries.any fun x =>
        decide (entryKey x = newKey (withTimestamps e now))) = false := by
      rw [List.any_eq_false]
      intro x hx
      simp [newKey_withTimestamps, hnodup x hx]
    simp [hany]
  · intro s es now hok
    unfold bulkCreateListEntries
    simp [hok]

/-- Witness for the amended C3: a concrete invalid single insert fails, a
concrete bare registrable domain succeeds, and a concrete invalid batch
commits. -/
theorem insert_update_domain_strictness_witness :
    createListEntry samplePsl { entries := [], nextId := 0 }
      { list_name := "L", domain := "mail.google.com", pattern_type := PatternType.domain,
        source := some EntrySource.user, metadata := {} } 3
      = .error "Invalid domain pattern" ∧
    createListEntry samplePsl { entries := [], nextId := 0 }
      { list_name := "L", domain := "google.com", pattern_type := PatternType.domain,
        source := some EntrySource.user, metadata := {} } 3
      = .ok ({ entries := [{ id := 0, list_name := "L", domain := "google.com",
                             pattern_type := PatternType.domain,
                             source := some EntrySource.user,
                             metadata := { created_at := some 3, updated_at := some 3 } }],
               nextId := 1 }, 0) ∧
    bulkCreateListEntries { entries := [], nextId := 0 }
      [{ list_name := "L", domain := "mail.google.com", pattern_type := PatternType.domain,
         source := some EntrySource.user, metadata := {} }] 7
      = .ok { entries := [{ id := 0, list_name := "L", domain := "mail.google.com",
                            pattern_type := PatternType.domain,
                            source := some EntrySource.user,
                            metadata := { created_at := some 7, updated_at := some 7 } }],
              nextId := 1 } :=
  ⟨(insert_update_domain_strictness samplePsl).1 _ _ 3 rfl (by decide),
   by
     have h := (insert_update_domain_strictness samplePsl).2.2.1
       { entries := [], nextId := 0 }
       { list_name := "L", domain := "google.com", pattern_type := PatternType.domain,
         source := some EntrySource.user, metadata := {} } 3 rfl (by decide)
       (by intro x hx; cases hx)
     simpa using h,
   (insert_update_domain_strictness samplePsl).2.2.2 _ _ 7 (by decide)⟩

-- ============================================================================
-- Claim theorems: importList (C6)
-- ============================================================================

/-- Counterexample to C6 as stated: importList takes no source argument from
its caller, and the entries it persists carry no source value at all (the
mapped objects simply omit the field), so an imported entry is not persisted
with a caller-chosen source. -/
theorem importList_no_source_cex :
    importList { entries := [{ id := 0, list_name := "L", domain := "old.com",
                               pattern_type := PatternType.host,
                               source := some EntrySource.user, metadata := {} }],
                 nextId := 1 } "L"
      (some [{ domain := "a.com", pattern_type := PatternType.host }]) 9
      = .ok ({ entries := [{ id := 1, list_name := "L", domain := "a.com",
                             pattern_type := PatternType.host, source := none,
                             metadata := { created_at := some 9, updated_at := some 9 } }],
               nextId := 2 }, 1) ∧
    ({ id := 1, list_name := "L", domain := "a.com", pattern_type := PatternType.host,
       source := none,
       metadata := { created_at := some 9, updated_at := some 9 } } : ListEntry).source
      = none := by
  constructor
  · decide
  · decide

/-- C6 amended: importList first deletes every entry of the target list
regardless of source, then inserts the file's entries; each imported entry
is persisted with NO source value (none is passed by the caller — the
function accepts no source argument — and none is inferred from the
file). -/
theorem importList_spec (s : Store) (L : String) (es : List ImportEntry) (now : Nat)
    (s' : Store) (n : Nat) (h : importList s L (some es) now = .ok (s', n)) :
    n = es.length ∧
    (s'.entries.filter (fun e => e.list_name = L)).map entryObs
      = es.map (fun ie => (L, ie.pattern_type, ie.domain, (none : Option EntrySource))) ∧
    s'.entries.filter (fun e => e.list_name ≠ L) = s.entries.filter (fun e => e.list_name ≠ L) := by
  have hred : importList s L (some es) now =
      match bulkCreateListEntries (deleteAllEntriesInList s L none)
          (es.map (importToNewEntry L)) now with
      | .ok s'' => .ok (s'', (es.map (importToNewEntry L)).length)
      | .error msg => .error msg := rfl
  rw [hred] at h
  cases hbulk : bulkCreateListEntries (deleteAllEntriesInList s L none)
      (es.map (importToNewEntry L)) now with
  | error msg => rw [hbulk] at h; cases h
  | ok s'' =>
      rw [hbulk] at h
      have hs : s'' = s' ∧ (es.map (importToNewEntry L)).length = n := by
        have := Except.ok.inj h
        exact ⟨congrArg Prod.fst this, congrArg Prod.snd this⟩
      obtain ⟨hs'', hn⟩ := hs
      subst hs''
      have heq := bulk_ok_eq _ _ _ _ hbulk
      subst heq
      refine ⟨by simpa using hn.symm, ?_, ?_⟩
      · rw [insertAll]
        simp only [List.filter_append]
        have h1 : (deleteAllEntriesInList s L none).entries.filter
            (fun e => decide (e.list_name = L)) = [] := by
          simp only [deleteAllEntriesInList, List.filter_filter]
          rw [List.filter_eq_nil_iff]
          intro a _
          by_cases hL : a.list_name = L <;> simp [hL]
        rw [h1]
        have h2 : ∀ en ∈ assignIds (deleteAllEntriesInList s L none).nextId
            ((es.map (importToNewEntry L)).map (withTimestamps · now)),
            en.list_name = L := by
          intro en hen
          obtain ⟨e0, he0, _, hl, _⟩ := mem_assignIds_metadata _ _ _ hen
          rw [hl]
          simp only [List.mem_map] at he0
          obtain ⟨e1, he1, hstamp⟩ := he0
          obtain ⟨ie, _, himp⟩ := he1
          rw [← hstamp, ← himp]
          rfl
        rw [List.nil_append, List.filter_eq_self.mpr (by intro a ha; simpa using h2 a ha)]
        rw [assignIds_map_obs, List.map_map, List.map_map]
        apply List.map_congr_left
        intro ie _
        rfl
      · rw [insertAll]
        simp only [List.filter_append]
        have h2 : (assignIds (deleteAllEntriesInList s L none).nextId
            ((es.map (importToNewEntry L)).map (withTimestamps · now))).filter
            (fun e => decide (e.list_name ≠ L)) = [] := by
          rw [List.filter_eq_nil_iff]
          intro en hen
          obtain ⟨e0, he0, _, hl, _⟩ := mem_assignIds_metadata _ _ _ hen
          simp only [List.mem_map] at he0
          obtain ⟨e1, he1, hstamp⟩ := he0
          obtain ⟨ie, _, himp⟩ := he1
          have : en.list_name = L := by rw [hl, ← hstamp, ← himp]; rfl
          simp [this]
        rw [h2, List.append_nil]
        simp only [deleteAllEntriesInList, List.filter_filter]
        apply List.filter_congr
        intro a _
        by_cases hL : a.list_name = L <;> simp [hL]

/-- Witness for the amended C6 at a concrete import. -/
theorem importList_spec_witness :
    importList { entries := [{ id := 0, list_name := "L", domain := "old.com",
                               pattern_type := PatternType.host,
                               source := some EntrySource.user, metadata := {} }],
                 nextId := 1 } "L"
      (some [{ domain := "a.com", pattern_type := PatternType.host }]) 9
      = .ok ({ entries := [{ id := 1, list_name := "L", domain := "a.com",
                             pattern_type := PatternType.host, source := none,
                             metadata := { created_at := some 9, updated_at := some 9 } }],
               nextId := 2 }, 1) ∧
    (1 = [({ domain := "a.com", pattern_type := PatternType.host } : ImportEntry)].length ∧
     ((({ entries := [{ id := 1, list_name := "L", domain := "a.com",
                        pattern_type := PatternType.host, source := none,
                        metadata := { created_at := some 9, updated_at := some 9 } }],
          nextId := 2 } : Store).entries.filter (fun e => e.list_name = "L")).map entryObs
        = [({ domain := "a.com", pattern_type := PatternType.host } : ImportEntry)].map
            (fun ie => ("L", ie.pattern_type, ie.domain, (none : Option EntrySource))) ∧
      ({ entries := [{ id := 1, list_name := "L", domain := "a.com",
                       pattern_type := PatternType.host, source := none,
                       metadata := { created_at := some 9, updated_at := some 9 } }],
         nextId := 2 } : Store).entries.filter (fun e => e.list_name ≠ "L")
        = ({ entries := [{ id := 0, list_name := "L", domain := "old.com",
                           pattern_type := PatternType.host,
                           source := some EntrySource.user, metadata := {} }],
             nextId := 1 } : Store).entries.filter (fun e => e.list_name ≠ "L"))) :=
  ⟨by decide,
   importList_spec _ "L" [{ domain := "a.com", pattern_type := PatternType.host }] 9 _ 1
     (by decide)⟩

-- ============================================================================
-- Claim theorems: timestamps (C7)
-- ============================================================================

/-- Counterexample to C7 as stated: at creation a caller-supplied future
created_at is stored verbatim while updated_at is the (earlier) operation
time, so updated_at < created_at; and updateListEntry honors a
caller-supplied created_at inside updates.metadata, so created_at is not
only honored at creation. -/
theorem timestamps_monotonicity_cex :
    createListEntry samplePsl { entries := [], nextId := 0 }
      { list_name := "L", domain := "h", pattern_type := PatternType.host,
        source := some EntrySource.user, metadata := { created_at := some 10 } } 5
      = .ok ({ entries := [{ id := 0, list_name := "L", domain := "h",
                             pattern_type := PatternType.host,
                             source := some EntrySource.user,
                             metadata := { created_at := some 10, updated_at := some 5 } }],
               nextId := 1 }, 0) ∧
    ¬(10 ≤ 5) ∧
    updateListEntry samplePsl
      { entries := [{ id := 0, list_name := "L", domain := "h",
                      pattern_type := PatternType.host, source := some EntrySource.user,
                      metadata := { created_at := some 1, updated_at := some 1 } }],
        nextId := 1 } 0
      { metadata := some { created_at := some 99 } } 5
      = .ok { entries := [{ id := 0, list_name := "L", domain := "h",
                            pattern_type := PatternType.host,
                            source := some EntrySource.user,
                            metadata := { created_at := some 99, updated_at := some 5 } }],
              nextId := 1 } := by
  refine ⟨by decide, by decide, by decide⟩

/-- C7 amended: every write path stamps updated_at with the operation time;
created_at is honored from caller input at creation AND at update (via
updates.metadata); consequently updated_at is at least created_at for every
entry written by an operation whose caller-supplied created_at values (and,
for updates, the pre-existing created_at) do not exceed the operation
time. -/
theorem write_paths_timestamps (psl : PslResolver) :
    (∀ s (e : NewEntry) now s' i, createListEntry psl s e now = .ok (s', i) →
      (∀ c, e.metadata.created_at = some c → c ≤ now) →
      ∀ en ∈ s'.entries, en ∈ s.entries ∨
        (en.metadata.updated_at = some now ∧
         ∃ ca, en.metadata.created_at = some ca ∧ ca ≤ now)) ∧
    (∀ s (es : List NewEntry) now s', bulkCreateListEntries s es now = .ok s' →
      (∀ e ∈ es, ∀ c, e.metadata.created_at = some c → c ≤ now) →
      ∀ en ∈ s'.entries, en ∈ s.entries ∨
        (en.metadata.updated_at = some now ∧
         ∃ ca, en.metadata.created_at = some ca ∧ ca ≤ now)) ∧
    (∀ s id (u : EntryUpdates) now s', updateListEntry psl s id u now = .ok s' →
      (∀ m, u.metadata = some m → ∀ c, m.created_at = some c → c ≤ now) →
      (∀ e ∈ s.entries, ∀ c, e.metadata.created_at = some c → c ≤ now) →
      ∀ en ∈ s'.entries, en ∈ s.entries ∨
        (en.metadata.updated_at = some now ∧
         ∀ c, en.metadata.created_at = some c → c ≤ now)) := by
  refine ⟨?_, ?_, ?_⟩
  · intro s e now s' i h hca en hen
    unfold createListEntry at h
    by_cases hval : (decide (e.pattern_type = PatternType.domain)
        && !isStrictRegisteredDomain psl e.domain) = true
    · rw [if_pos hval] at h; cases h
    · rw [if_neg hval] at h
      by_cases huniq : (s.entries.any fun x =>
          decide (entryKey x = newKey (withTimestamps e now))) = true
      · rw [if_pos huniq] at h; cases h
      · rw [if_neg huniq] at h
        have hs : s' = storeAdd s (withTimestamps e now) := by
          have := Except.ok.inj h
          exact (congrArg Prod.fst this).symm
        subst hs
        rcases List.mem_append.mp hen with hl | hr
        · exact Or.inl hl
        · right
          rcases List.mem_singleton.mp hr with rfl
          exact ⟨rfl, createdAtOrNow e.metadata.created_at now, rfl,
            createdAtOrNow_le _ _ hca⟩
  · intro s es now s' h hca en hen
    have heq := bulk_ok_eq _ _ _ _ h
    subst heq
    rw [insertAll] at hen
    rcases List.mem_append.mp hen with hl | hr
    · exact Or.inl hl
    · right
      obtain ⟨e0, he0, hmeta, _⟩ := mem_assignIds_metadata _ _ _ hr
      simp only [List.mem_map] at he0
      obtain ⟨e1, he1, hstamp⟩ := he0
      rw [hmeta, ← hstamp]
      exact ⟨rfl, createdAtOrNow e1.metadata.created_at now, rfl,
        createdAtOrNow_le _ _ (hca e1 he1)⟩
  · intro s id u now s' h hum hsm en hen
    unfold updateListEntry at h
    cases hfind : s.entries.find? (fun e => e.id = id) with
    | none => rw [hfind] at h; cases h
    | some entry =>
        rw [hfind] at h
        simp only [] at h
        by_cases hval : (decide (u.pattern_type.getD entry.pattern_type = PatternType.domain)
            && !isStrictRegisteredDomain psl (u.domain.getD entry.domain)) = true
        · rw [if_pos hval] at h; cases h
        · rw [if_neg hval] at h
          by_cases huniq : (s.entries.any fun x => decide (x.id ≠ id)
              && decide (entryKey x = entryKey (updatedEntryOf entry id u now))) = true
          · rw [if_pos huniq] at h; cases h
          · rw [if_neg huniq] at h
            have hs : s' = { s with entries := s.entries.map (fun x =>
                if x.id = id then updatedEntryOf entry id u now else x) } :=
              (Except.ok.inj h).symm
            subst hs
            obtain ⟨x, hx, hxe⟩ := List.mem_map.mp hen
            by_cases hid : x.id = id
            · rw [if_pos hid] at hxe
              right
              rw [← hxe]
              refine ⟨rfl, ?_⟩
              intro c hc
              have hentry : entry ∈ s.entries := List.mem_of_find?_eq_some hfind
              have hc' : (mergeMetadata entry.metadata u.metadata).created_at = some c := hc
              cases hm : u.metadata with
              | none =>
                  rw [hm] at hc'
                  exact hsm entry hentry c (by simpa [mergeMetadata] using hc')
              | some m =>
                  rw [hm] at hc'
                  simp only [mergeMetadata] at hc'
                  cases hmc : m.created_at with
                  | none =>
                      rw [hmc] at hc'
                      simp only [Option.orElse] at hc'
                      exact hsm entry hentry c hc'
                  | some c0 =>
                      rw [hmc] at hc'
                      simp only [Option.orElse] at hc'
                      cases hc'
                      exact hum m hm c hmc
            · rw [if_neg hid] at hxe
              exact Or.inl (hxe ▸ hx)

/-- Witness for the amended C7: a concrete create whose caller-supplied
created_at is at most the operation time yields a monotone entry. -/
theorem write_paths_timestamps_witness :
    createListEntry samplePsl { entries := [], nextId := 0 }
      { list_name := "L", domain := "h", pattern_type := PatternType.host,
        source := some EntrySource.user, metadata := { created_at := some 3 } } 5
      = .ok ({ entries := [{ id := 0, list_name := "L", domain := "h",
                             pattern_type := PatternType.host,
                             source := some EntrySource.user,
                             metadata := { created_at := some 3, updated_at := some 5 } }],
               nextId := 1 }, 0) ∧
    (({ id := 0, list_name := "L", domain := "h", pattern_type := PatternType.host,
        source := some EntrySource.user,
        metadata := { created_at := some 3, updated_at := some 5 } } : ListEntry)
        ∈ ({ entries := [], nextId := 0 } : Store).entries ∨
     (({ id := 0, list_name := "L", domain := "h", pattern_type := PatternType.host,
         source := some EntrySource.user,
         metadata := { created_at := some 3, updated_at := some 5 } } : ListEntry).metadata.updated_at
        = some 5 ∧
      ∃ ca, ({ id := 0, list_name := "L", domain := "h", pattern_type := PatternType.host,
               source := some EntrySource.user,
               metadata := { created_at := some 3, updated_at := some 5 } } : ListEntry).metadata.created_at
          = some ca ∧ ca ≤ 5)) :=
  ⟨by decide,
   (write_paths_timestamps samplePsl).1 { entries := [], nextId := 0 }
     { list_name := "L", domain := "h", pattern_type := PatternType.host,
       source := some EntrySource.user, metadata := { created_at := some 3 } } 5
     { entries := [{ id := 0, list_name := "L", domain := "h",
                     pattern_type := PatternType.host,
                     source := some EntrySource.user,
                     metadata := { created_at := some 3, updated_at := some 5 } }],
       nextId := 1 } 0
     (by decide) (by intro c hc; simp only [Option.some.injEq] at hc; omega)
     { id := 0, list_name := "L", domain := "h", pattern_type := PatternType.host,
       source := some EntrySource.user,
       metadata := { created_at := some 3, updated_at := some 5 } }
     (by decide)⟩

-- ============================================================================
-- Lemmas about the conflict-resolution loop
-- ============================================================================

lemma resolve_entries_sublist (L : String) (cs : List Candidate) (s : Store) :
    List.Sublist (resolveConflicts s L cs).entries s.entries := by
  induction cs generalizing s with
  | nil => exact List.Sublist.refl _
  | cons c rest ih =>
      simp only [resolveConflicts]
      cases hk : candKey L c with
      | none => simp only []; exact ih s
      | some k =>
          obtain ⟨ln, pt, d⟩ := k
          simp only []
          cases hf : findListEntryByPattern s ln pt d with
          | none => exact ih s
          | some f => exact (ih _).trans (List.filter_sublist _)

lemma resolve_nextId (L : String) (cs : List Candidate) (s : Store) :
    (resolveConflicts s L cs).nextId = s.nextId := by
  induction cs generalizing s with
  | nil => rfl
  | cons c rest ih =>
      simp only [resolveConflicts]
      cases hk : candKey L c with
      | none => simp only []; exact ih s
      | some k =>
          obtain ⟨ln, pt, d⟩ := k
          simp only []
          cases hf : findListEntryByPattern s ln pt d with
          | none => exact ih s
          | some f => exact ih _

lemma find_eq_none_iff (s : Store) (ln : String) (pt : PatternType) (d : String) :
    findListEntryByPattern s ln pt d = none ↔
      ∀ e ∈ s.entries, entryKey e ≠ (ln, pt, d) := by
  unfold findListEntryByPattern
  rw [List.find?_eq_none]
  simp

lemma find_some_props (s : Store) (ln : String) (pt : PatternType) (d : String)
    (f : ListEntry) (h : findListEntryByPattern s ln pt d = some f) :
    f ∈ s.entries ∧ entryKey f = (ln, pt, d) := by
  unfold findListEntryByPattern at h
  exact ⟨List.mem_of_find?_eq_some h, by simpa using List.find?_some h⟩

lemma mem_delete_iff (s : Store) (id : Nat) (e : ListEntry) :
    e ∈ (deleteListEntry s id).entries ↔ e ∈ s.entries ∧ e.id ≠ id := by
  unfold deleteListEntry
  simp

lemma delete_no_key (s : Store) (ln : String) (pt : PatternType) (d : String)
    (f : ListEntry) (hWF : s.entries.Pairwise entryRel)
    (hf : findListEntryByPattern s ln pt d = some f) :
    ∀ e ∈ (deleteListEntry s f.id).entries, entryKey e ≠ (ln, pt, d) := by
  intro e he hk
  obtain ⟨hmem, hid⟩ := (mem_delete_iff s f.id e).mp he
  obtain ⟨hfmem, hfkey⟩ := find_some_props s ln pt d f hf
  have hne : e ≠ f := fun hef => hid (hef ▸ rfl)
  exact (hWF.forall entryRel_symm hmem hfmem hne).2 (by rw [hk, hfkey])

lemma no_key_resolve (L : String) (cs : List Candidate) (s : Store) (k : EntryKey)
    (h : ∀ e ∈ s.entries, entryKey e ≠ k) :
    ∀ e ∈ (resolveConflicts s L cs).entries, entryKey e ≠ k :=
  fun e he => h e ((resolve_entries_sublist L cs s).subset he)

lemma resolve_wf (L : String) (cs : List Candidate) (s : Store)
    (h : s.entries.Pairwise entryRel) :
    (resolveConflicts s L cs).entries.Pairwise entryRel :=
  h.sublist (resolve_entries_sublist L cs s)

lemma resolve_no_candKey (L : String) (cs : List Candidate) (ln : String)
    (pt : PatternType) (d : String) : ∀ s : Store, s.entries.Pairwise entryRel →
    (∃ c ∈ cs, candKey L c = some (ln, pt, d)) →
    ∀ e ∈ (resolveConflicts s L cs).entries, entryKey e ≠ (ln, pt, d) := by
  induction cs with
  | nil =>
      rintro s _ ⟨c, hc, _⟩
      cases hc
  | cons c0 rest ih =>
      rintro s hWF ⟨c, hcmem, hk⟩
      rcases List.mem_cons.mp hcmem with rfl | hc'
      · simp only [resolveConflicts, hk]
        cases hf : findListEntryByPattern s ln pt d with
        | none =>
            exact no_key_resolve L rest s _ ((find_eq_none_iff s ln pt d).mp hf)
        | some f =>
            exact no_key_resolve L rest _ _ (delete_no_key s ln pt d f hWF hf)
      · simp only [resolveConflicts]
        cases hk0 : candKey L c0 with
        | none => simp only []; exact ih s hWF ⟨c, hc', hk⟩
        | some k0 =>
            obtain ⟨ln0, pt0, d0⟩ := k0
            simp only []
            cases hf : findListEntryByPattern s ln0 pt0 d0 with
            | none => exact ih s hWF ⟨c, hc', hk⟩
            | some f =>
                exact ih (deleteListEntry s f.id)
                  (hWF.sublist (List.filter_sublist _)) ⟨c, hc', hk⟩

lemma resolve_preserves (L : String) (cs : List Candidate) :
    ∀ s : Store, s.entries.Pairwise entryRel →
    ∀ e ∈ s.entries, (∀ c ∈ cs, candKey L c ≠ some (entryKey e)) →
    e ∈ (resolveConflicts s L cs).entries := by
  induction cs with
  | nil => intro s _ e he _; exact he
  | cons c0 rest ih =>
      intro s hWF e he hnc
      simp only [resolveConflicts]
      cases hk0 : candKey L c0 with
      | none =>
          simp only []
          exact ih s hWF e he (fun c hc => hnc c (List.mem_cons_of_mem c0 hc))
      | some k0 =>
          obtain ⟨ln0, pt0, d0⟩ := k0
          simp only []
          cases hf : findListEntryByPattern s ln0 pt0 d0 with
          | none =>
              exact ih s hWF e he (fun c hc => hnc c (List.mem_cons_of_mem c0 hc))
          | some f =>
              obtain ⟨hfmem, hfkey⟩ := find_some_props s ln0 pt0 d0 f hf
              have hne : e.id ≠ f.id := by
                by_cases hef : e = f
                · subst hef
                  exact absurd (by rw [hk0, hfkey])
                    (hnc c0 (List.mem_cons_self c0 rest))
                · intro hid
                  exact (hWF.forall entryRel_symm he hfmem hef).1 hid
              exact ih (deleteListEntry s f.id) (hWF.sublist (List.filter_sublist _)) e
                ((mem_delete_iff s f.id e).mpr ⟨he, hne⟩)
                (fun c hc => hnc c (List.mem_cons_of_mem c0 hc))

lemma resolve_eq_self (L : String) (cs : List Candidate) (s : Store)
    (h : ∀ c ∈ cs, ∀ ln pt d, candKey L c = some (ln, pt, d) →
      findListEntryByPattern s ln pt d = none) :
    resolveConflicts s L cs = s := by
  induction cs with
  | nil => rfl
  | cons c0 rest ih =>
      simp only [resolveConflicts]
      cases hk0 : candKey L c0 with
      | none => simp only []; exact ih (fun c hc => h c (List.mem_cons_of_mem c0 hc))
      | some k0 =>
          obtain ⟨ln, pt, d⟩ := k0
          simp only []
          rw [h c0 (List.mem_cons_self c0 rest) ln pt d hk0]
          exact ih (fun c hc => h c (List.mem_cons_of_mem c0 hc))

-- ============================================================================
-- Lemmas about bulk insertion and the prepared backend batch
-- ============================================================================

lemma bulkAddOk_props (es : List NewEntry) : ∀ ks, bulkAddOk ks es = true →
    (es.map newKey).Nodup ∧ ∀ e ∈ es, newKey e ∉ ks := by
  induction es with
  | nil =>
      intro ks _
      exact ⟨List.nodup_nil, by intro e he; cases he⟩
  | cons e rest ih =>
      intro ks h
      rw [bulkAddOk] at h
      by_cases hmem : newKey e ∈ ks
      · rw [if_pos hmem] at h; cases h
      · rw [if_neg hmem] at h
        obtain ⟨hnd, hnm⟩ := ih (newKey e :: ks) h
        refine ⟨List.nodup_cons.mpr ⟨?_, hnd⟩, ?_⟩
        · intro hin
          obtain ⟨e', he', hke⟩ := List.mem_map.mp hin
          exact hnm e' he' (hke ▸ List.mem_cons_self _ _)
        · intro e' he'
          rcases List.mem_cons.mp he' with rfl | he''
          · exact hmem
          · intro hin
            exact hnm e' he'' (List.mem_cons_of_mem _ hin)

lemma bulkAddOk_ext (es₁ : List NewEntry) : ∀ (es₂ : List NewEntry),
    es₁.map newKey = es₂.map newKey → ∀ ks, bulkAddOk ks es₁ = bulkAddOk ks es₂ := by
  induction es₁ with
  | nil =>
      intro es₂ h ks
      cases es₂ with
      | nil => rfl
      | cons _ _ => cases h
  | cons e rest ih =>
      intro es₂ h ks
      cases es₂ with
      | nil => cases h
      | cons e₂ rest₂ =>
          simp only [List.map_cons, List.cons.injEq] at h
          obtain ⟨hk, hrest⟩ := h
          rw [bulkAddOk, bulkAddOk, hk]
          by_cases hmem : newKey e₂ ∈ ks
          · rw [if_pos hmem, if_pos hmem]
          · rw [if_neg hmem, if_neg hmem]
            exact ih rest₂ hrest (newKey e₂ :: ks)

lemma stamped_map_key (es : List NewEntry) (now : Nat) :
    (es.map (withTimestamps · now)).map newKey = es.map newKey := by
  rw [List.map_map]
  apply List.map_congr_left
  intro e _
  rfl

lemma stamped_map_obs (es : List NewEntry) (now : Nat) :
    (es.map (withTimestamps · now)).map newObs = es.map newObs := by
  rw [List.map_map]
  apply List.map_congr_left
  intro e _
  rfl

lemma insertAll_entries (s : Store) (es : List NewEntry) (now : Nat) :
    (insertAll s es now).entries
      = s.entries ++ assignIds s.nextId (es.map (withTimestamps · now)) := rfl

/-- Membership in the prepared backend batch, characterized by the loop's
guards. -/
lemma mem_bne_iff (psl : PslResolver) (L : String) (cs : List Candidate) (now : Nat)
    (e : NewEntry) : e ∈ backendNewEntries psl L cs now ↔
      ∃ c ∈ cs, ∃ d pt, c.domain = some d ∧ c.pattern_type = some pt ∧ d ≠ "" ∧
        ¬(pt = PatternType.domain ∧ isStrictRegisteredDomain psl d = false) ∧
        e = toBackendEntry L d pt c.metadata now := by
  induction cs with
  | nil => simp [backendNewEntries]
  | cons c rest ih =>
      simp only [backendNewEntries]
      cases hcd : c.domain with
      | none =>
          simp only []
          rw [ih]
          constructor
          · rintro ⟨c', hc', rest'⟩
            exact ⟨c', List.mem_cons_of_mem c hc', rest'⟩
          · rintro ⟨c', hc', d, pt, hd, hrest⟩
            rcases List.mem_cons.mp hc' with rfl | hc''
            · rw [hcd] at hd; cases hd
            · exact ⟨c', hc'', d, pt, hd, hrest⟩
      | some d0 =>
          cases hcp : c.pattern_type with
          | none =>
              simp only []
              rw [ih]
              constructor
              · rintro ⟨c', hc', rest'⟩
                exact ⟨c', List.mem_cons_of_mem c hc', rest'⟩
              · rintro ⟨c', hc', d, pt, hd, hp, hrest⟩
                rcases List.mem_cons.mp hc' with rfl | hc''
                · rw [hcp] at hp; cases hp
                · exact ⟨c', hc'', d, pt, hd, hp, hrest⟩
          | some pt0 =>
              simp only []
              by_cases hd0 : d0 = ""
              · rw [if_pos hd0, ih]
                constructor
                · rintro ⟨c', hc', rest'⟩
                  exact ⟨c', List.mem_cons_of_mem c hc', rest'⟩
                · rintro ⟨c', hc', d, pt, hd, hp, hne, hrest⟩
                  rcases List.mem_cons.mp hc' with rfl | hc''
                  · rw [hcd] at hd
                    cases hd
                    exact absurd hd0 hne
                  · exact ⟨c', hc'', d, pt, hd, hp, hne, hrest⟩
              · rw [if_neg hd0]
                by_cases hg : (pt0 = PatternType.domain
                    && !isStrictRegisteredDomain psl d0) = true
                · rw [if_pos hg, ih]
                  constructor
                  · rintro ⟨c', hc', rest'⟩
                    exact ⟨c', List.mem_cons_of_mem c hc', rest'⟩
                  · rintro ⟨c', hc', d, pt, hd, hp, hne, hguard, hrest⟩
                    rcases List.mem_cons.mp hc' with rfl | hc''
                    · rw [hcd] at hd
                      cases hd
                      rw [hcp] at hp
                      cases hp
                      simp only [Bool.and_eq_true, decide_eq_true_eq,
                        Bool.not_eq_true', Bool.not_true] at hg
                      exact absurd ⟨hg.1, by simpa using hg.2⟩ hguard
                    · exact ⟨c', hc'', d, pt, hd, hp, hne, hguard, hrest⟩
                · rw [if_neg hg]
                  simp only [List.mem_cons, ih]
                  constructor
                  · rintro (rfl | ⟨c', hc', rest'⟩)
                    · refine ⟨c, Or.inl rfl, d0, pt0, hcd, hcp, hd0, ?_, rfl⟩
                      intro ⟨hpt, hstr⟩
                      exact hg (by simp [hpt, hstr])
                    · exact ⟨c', Or.inr hc', rest'⟩
                  · rintro ⟨c', hc', d, pt, hd, hp, hne, hguard, hrest⟩
                    rcases hc' with rfl | hc''
                    · rw [hcd] at hd
                      cases hd
                      rw [hcp] at hp
                      cases hp
                      exact Or.inl hrest
                    · exact Or.inr ⟨c', hc'', d, pt, hd, hp, hne, hguard, hrest⟩

lemma bne_map_key_indep (psl : PslResolver) (L : String) (cs : List Candidate)
    (now₁ now₂ : Nat) :
    (backendNewEntries psl L cs now₁).map newKey
      = (backendNewEntries psl L cs now₂).map newKey := by
  induction cs with
  | nil => rfl
  | cons c rest ih =>
      simp only [backendNewEntries]
      cases hcd : c.domain with
      | none => exact ih
      | some d0 =>
          cases hcp : c.pattern_type with
          | none => exact ih
          | some pt0 =>
              simp only []
              by_cases hd0 : d0 = ""
              · rw [if_pos hd0, if_pos hd0]; exact ih
              · rw [if_neg hd0, if_neg hd0]
                by_cases hg : (pt0 = PatternType.domain
                    && !isStrictRegisteredDomain psl d0) = true
                · rw [if_pos hg, if_pos hg]; exact ih
                · rw [if_neg hg, if_neg hg]
                  simp only [List.map_cons]
                  rw [ih]
                  rfl

lemma bne_map_obs_indep (psl : PslResolver) (L : String) (cs : List Candidate)
    (now₁ now₂ : Nat) :
    (backendNewEntries psl L cs now₁).map newObs
      = (backendNewEntries psl L cs now₂).map newObs := by
  induction cs with
  | nil => rfl
  | cons c rest ih =>
      simp only [backendNewEntries]
      cases hcd : c.domain with
      | none => exact ih
      | some d0 =>
          cases hcp : c.pattern_type with
          | none => exact ih
          | some pt0 =>
              simp only []
              by_cases hd0 : d0 = ""
              · rw [if_pos hd0, if_pos hd0]; exact ih
              · rw [if_neg hd0, if_neg hd0]
                by_cases hg : (pt0 = PatternType.domain
                    && !isStrictRegisteredDomain psl d0) = true
                · rw [if_pos hg, if_pos hg]; exact ih
                · rw [if_neg hg, if_neg hg]
                  simp only [List.map_cons]
                  rw [ih]
                  rfl

lemma bne_isEmpty_indep (psl : PslResolver) (L : String) (cs : List Candidate)
    (now₁ now₂ : Nat) :
    (backendNewEntries psl L cs now₁).isEmpty
      = (backendNewEntries psl L cs now₂).isEmpty := by
  have h := bne_map_key_indep psl L cs now₁ now₂
  have hlen : (backendNewEntries psl L cs now₁).length
      = (backendNewEntries psl L cs now₂).length := by
    rw [← List.length_map (backendNewEntries psl L cs now₁) newKey, h, List.length_map]
  cases h₁ : backendNewEntries psl L cs now₁ with
  | nil =>
      cases h₂ : backendNewEntries psl L cs now₂ with
      | nil => rfl
      | cons _ _ => rw [h₁, h₂] at hlen; cases hlen
  | cons _ _ =>
      cases h₂ : backendNewEntries psl L cs now₂ with
      | nil => rw [h₁, h₂] at hlen; cases hlen
      | cons _ _ => rfl

-- ============================================================================
-- Lemmas about the merge phases
-- ============================================================================

lemma mip_empty (psl : PslResolver) (s2 : Store) (L : String) (cs : List Candidate)
    (now : Nat) (h : (backendNewEntries psl L cs now).isEmpty = true) :
    mergeInsertPhase psl s2 L cs now = (s2, true) := by
  unfold mergeInsertPhase
  rw [if_pos h]

lemma mip_ok (psl : PslResolver) (s2 : Store) (L : String) (cs : List Candidate)
    (now : Nat) (hne : (backendNewEntries psl L cs now).isEmpty = false)
    (hok : bulkAddOk (keysOf s2)
      ((backendNewEntries psl L cs now).map (withTimestamps · now)) = true) :
    mergeInsertPhase psl s2 L cs now
      = (insertAll s2 (backendNewEntries psl L cs now) now, true) := by
  unfold mergeInsertPhase
  rw [hne]
  simp only [Bool.false_eq_true, if_false]
  unfold bulkCreateListEntries
  rw [if_pos hok]

lemma mip_fail (psl : PslResolver) (s2 : Store) (L : String) (cs : List Candidate)
    (now : Nat) (hne : (backendNewEntries psl L cs now).isEmpty = false)
    (hok : bulkAddOk (keysOf s2)
      ((backendNewEntries psl L cs now).map (withTimestamps · now)) = false) :
    mergeInsertPhase psl s2 L cs now = (s2, false) := by
  unfold mergeInsertPhase
  rw [hne]
  simp only [Bool.false_eq_true, if_false]
  unfold bulkCreateListEntries
  rw [hok]
  simp

lemma mergeInsertPhase_entries_cases (psl : PslResolver) (s2 : Store) (L : String)
    (cs : List Candidate) (now : Nat) :
    (mergeInsertPhase psl s2 L cs now).1.entries = s2.entries ∨
    (mergeInsertPhase psl s2 L cs now).1.entries
      = s2.entries ++ assignIds s2.nextId
          ((backendNewEntries psl L cs now).map (withTimestamps · now)) := by
  cases hemp : (backendNewEntries psl L cs now).isEmpty with
  | true => rw [mip_empty psl s2 L cs now hemp]; exact Or.inl rfl
  | false =>
      cases hok : bulkAddOk (keysOf s2)
          ((backendNewEntries psl L cs now).map (withTimestamps · now)) with
      | true =>
          rw [mip_ok psl s2 L cs now hemp hok]
          exact Or.inr rfl
      | false => rw [mip_fail psl s2 L cs now hemp hok]; exact Or.inl rfl

lemma bne_after_stamp_source (psl : PslResolver) (L : String) (cs : List Candidate)
    (now n : Nat) :
    ∀ e ∈ assignIds n ((backendNewEntries psl L cs now).map (withTimestamps · now)),
      e.list_name = L ∧ e.source = some EntrySource.backend := by
  intro e he
  obtain ⟨e0, he0, _, hln, _, _, hsrc⟩ := mem_assignIds_metadata _ _ _ he
  obtain ⟨e1, he1, hstamp⟩ := List.mem_map.mp he0
  obtain ⟨c, _, d, pt, _, _, _, _, he1eq⟩ := (mem_bne_iff psl L cs now e1).mp he1
  constructor
  · rw [hln, ← hstamp, he1eq]; rfl
  · rw [hsrc, ← hstamp, he1eq]; rfl

lemma resolve_del_no_backend (psl : PslResolver) (s : Store) (L : String)
    (cs : List Candidate) :
    ∀ e ∈ (resolveConflicts (deleteAllEntriesInList s L (some .backend)) L cs).entries,
      ¬(e.list_name = L ∧ e.source = some EntrySource.backend) := by
  intro e he hand
  have he1 := (resolve_entries_sublist L cs _).subset he
  unfold deleteAllEntriesInList at he1
  have h2 := (List.mem_filter.mp he1).2
  simp [hand.1, hand.2] at h2

lemma resolve_del_no_candKey (psl : PslResolver) (s : Store) (L : String)
    (cs : List Candidate) (hWF : WF s) :
    ∀ c ∈ cs, ∀ ln pt dd, candKey L c = some (ln, pt, dd) →
    ∀ e ∈ (resolveConflicts (deleteAllEntriesInList s L (some .backend)) L cs).entries,
      entryKey e ≠ (ln, pt, dd) :=
  fun c hc ln pt dd hk =>
    resolve_no_candKey L cs ln pt dd _ (hWF.1.sublist (List.filter_sublist _)) ⟨c, hc, hk⟩

lemma delete_eq_self (s : Store) (L : String) (src : EntrySource)
    (h : ∀ e ∈ s.entries, ¬(e.list_name = L ∧ e.source = some src)) :
    deleteAllEntriesInList s L (some src) = s := by
  unfold deleteAllEntriesInList
  have hfe : s.entries.filter (fun e => !(e.list_name = L && e.source = some src))
      = s.entries := by
    rw [List.filter_eq_self]
    intro e he
    simpa using not_and_or.mp (h e he)
  cases s with
  | mk entries nextId => simpa using hfe

-- ============================================================================
-- Claim theorems: the backend merge engine (C1, C2, C9, C10)
-- ============================================================================

/-- C2: mergeBackendList never touches a user- or generated-sourced entry
whose key is not the key of some candidate in the batch; and with an empty
batch it deletes exactly the backend-sourced entries of the list and
succeeds. -/
theorem mergeBackendList_source_preservation (psl : PslResolver) (s : Store) (L : String)
    (cs : List Candidate) (now : Nat) (hWF : WF s) :
    (∀ e ∈ s.entries,
      (e.source = some EntrySource.user ∨ e.source = some EntrySource.generated) →
      (∀ c ∈ cs, candKey L c ≠ some (entryKey e)) →
      e ∈ (mergeBackendList psl s L cs now).1.entries) ∧
    (mergeBackendList psl s L [] now).1.entries
      = s.entries.filter (fun e => !(e.list_name = L && e.source = some EntrySource.backend)) ∧
    (mergeBackendList psl s L [] now).2 = true := by
  refine ⟨?_, rfl, rfl⟩
  intro e he hsrc hnc
  have he1 : e ∈ (deleteAllEntriesInList s L (some .backend)).entries := by
    unfold deleteAllEntriesInList
    rw [List.mem_filter]
    refine ⟨he, ?_⟩
    rcases hsrc with h | h <;> simp [h]
  have hWF1 : (deleteAllEntriesInList s L (some .backend)).entries.Pairwise entryRel :=
    hWF.1.sublist (List.filter_sublist _)
  have he2 := resolve_preserves L cs _ hWF1 e he1 hnc
  unfold mergeBackendList
  rcases mergeInsertPhase_entries_cases psl _ L cs now with hcase | hcase
  · rw [hcase]; exact he2
  · rw [hcase]; exact List.mem_append_left _ he2

/-- Witness for C2 at a concrete store and batch: a user entry at an
uninvolved key survives a merge, and an empty-batch merge removes exactly
the backend entries. -/
theorem mergeBackendList_source_preservation_witness :
    ({ id := 0, list_name := "L", domain := "u.com", pattern_type := PatternType.host,
       source := some EntrySource.user, metadata := {} } : ListEntry)
      ∈ (mergeBackendList samplePsl
          { entries := [{ id := 0, list_name := "L", domain := "u.com",
                          pattern_type := PatternType.host,
                          source := some EntrySource.user, metadata := {} },
                        { id := 1, list_name := "L", domain := "b.com",
                          pattern_type := PatternType.host,
                          source := some EntrySource.backend, metadata := {} }],
            nextId := 2 } "L"
          [{ domain := some "c.com", pattern_type := some PatternType.host }] 4).1.entries ∧
    (mergeBackendList samplePsl
        { entries := [{ id := 0, list_name := "L", domain := "u.com",
                        pattern_type := PatternType.host,
                        source := some EntrySource.user, metadata := {} },
                      { id := 1, list_name := "L", domain := "b.com",
                        pattern_type := PatternType.host,
                        source := some EntrySource.backend, metadata := {} }],
          nextId := 2 } "L" [] 4).1.entries
      = [{ id := 0, list_name := "L", domain := "u.com", pattern_type := PatternType.host,
           source := some EntrySource.user, metadata := {} }] :=
  ⟨(mergeBackendList_source_preservation samplePsl
      { entries := [{ id := 0, list_name := "L", domain := "u.com",
                      pattern_type := PatternType.host,
                      source := some EntrySource.user, metadata := {} },
                    { id := 1, list_name := "L", domain := "b.com",
                      pattern_type := PatternType.host,
                      source := some EntrySource.backend, metadata := {} }],
        nextId := 2 } "L"
      [{ domain := some "c.com", pattern_type := some PatternType.host }] 4
      (by decide)).1
      { id := 0, list_name := "L", domain := "u.com", pattern_type := PatternType.host,
        source := some EntrySource.user, metadata := {} }
      (by decide) (by decide) (by decide),
   by decide⟩

/-- C10: the conflict-resolution loop deletes the pre-existing entry at a
candidate's key before validation runs, so a domain-type candidate with an
invalid (non-strict) non-empty pattern leaves no entry at that key at all:
the old user entry is deleted and the candidate itself is skipped. -/
theorem mergeBackendList_deletes_before_validating (psl : PslResolver) (s : Store)
    (L : String) (cs : List Candidate) (now : Nat) (p : String) (hWF : WF s)
    (hp : p ≠ "") (hinvalid : isStrictRegisteredDomain psl p = false)
    (hcand : ∃ c ∈ cs, c.domain = some p ∧ c.pattern_type = some PatternType.domain)
    (hpre : ∃ e ∈ s.entries, entryKey e = (L, PatternType.domain, p) ∧
      e.source = some EntrySource.user) :
    ∀ e ∈ (mergeBackendList psl s L cs now).1.entries,
      entryKey e ≠ (L, PatternType.domain, p) := by
  obtain ⟨c, hc, hcd, hcp⟩ := hcand
  have hkey : candKey L c = some (L, PatternType.domain, p) := by
    unfold candKey
    rw [hcd, hcp]
    simp [hp]
  have h2 := resolve_del_no_candKey psl s L cs hWF c hc L PatternType.domain p hkey
  intro e he
  unfold mergeBackendList at he
  rcases mergeInsertPhase_entries_cases psl (mergeResolved psl s L cs) L cs now with
    hcase | hcase
  · rw [hcase] at he
    exact h2 e he
  · rw [hcase] at he
    rcases List.mem_append.mp he with hl | hr
    · exact h2 e hl
    · intro hk
      obtain ⟨e0, he0, _, hln, hpt, hdom, _⟩ := mem_assignIds_metadata _ _ _ hr
      obtain ⟨e1, he1, hstamp⟩ := List.mem_map.mp he0
      obtain ⟨c', _, d, pt, _, _, _, hguard, he1eq⟩ :=
        (mem_bne_iff psl L cs now e1).mp he1
      have hkey_e : entryKey e = (L, pt, d) := by
        unfold entryKey
        rw [hln, hpt, hdom, ← hstamp, he1eq]
        rfl
      rw [hkey_e] at hk
      have hpd : pt = PatternType.domain ∧ d = p := by
        have := Prod.mk.injEq .. ▸ hk
        simp only [Prod.mk.injEq] at hk
        exact ⟨hk.2.1, hk.2.2⟩
      exact hguard ⟨hpd.1, hpd.2 ▸ hinvalid⟩

/-- Witness for C10 at a concrete store: the user entry at the key of the
invalid backend candidate is gone and nothing replaced it. -/
theorem mergeBackendList_deletes_before_validating_witness :
    (mergeBackendList samplePsl
        { entries := [{ id := 0, list_name := "L", domain := "mail.google.com",
                        pattern_type := PatternType.domain,
                        source := some EntrySource.user, metadata := {} }],
          nextId := 1 } "L"
        [{ domain := some "mail.google.com",
           pattern_type := some PatternType.domain }] 4).1.entries.all
      (fun e => entryKey e ≠ ("L", PatternType.domain, "mail.google.com")) = true :=
  List.all_eq_true.mpr fun e he =>
    decide_eq_true (mergeBackendList_deletes_before_validating samplePsl
      { entries := [{ id := 0, list_name := "L", domain := "mail.google.com",
                      pattern_type := PatternType.domain,
                      source := some EntrySource.user, metadata := {} }],
        nextId := 1 } "L"
      [{ domain := some "mail.google.com", pattern_type := some PatternType.domain }] 4
      "mail.google.com" (by decide) (by decide) (by decide)
      ⟨{ domain := some "mail.google.com", pattern_type := some PatternType.domain },
        by decide, rfl, rfl⟩
      ⟨{ id := 0, list_name := "L", domain := "mail.google.com",
         pattern_type := PatternType.domain, source := some EntrySource.user,
         metadata := {} }, by decide, rfl, rfl⟩ e he)

lemma filter_key_length_one (l : List ListEntry) (k : EntryKey)
    (hnd : (l.map entryKey).Nodup) (hk : k ∈ l.map entryKey) :
    (l.filter (fun e => entryKey e = k)).length = 1 := by
  induction l with
  | nil => cases hk
  | cons e rest ih =>
      simp only [List.map_cons, List.nodup_cons] at hnd
      obtain ⟨hnotin, hnd'⟩ := hnd
      rcases List.mem_cons.mp hk with hke | hkr
      · subst hke
        have hrest0 : rest.filter (fun x => decide (entryKey x = entryKey e)) = [] := by
          rw [List.filter_eq_nil_iff]
          intro a ha hka
          simp only [decide_eq_true_eq] at hka
          exact hnotin (hka ▸ List.mem_map_of_mem entryKey ha)
        simp [List.filter_cons, hrest0]
      · have hne : ¬(entryKey e = k) := fun h => hnotin (h ▸ hkr)
        rw [List.filter_cons, if_neg (by simpa using hne)]
        exact ih hnd' hkr

lemma ne_nil_isEmpty_false {α : Type} (l : List α) (h : l ≠ []) : l.isEmpty = false := by
  cases l with
  | nil => exact absurd rfl h
  | cons _ _ => rfl

/-- C1: a user entry at a key K and a valid backend candidate at the same
key K: after a merge that completes successfully, exactly one entry exists
at K, and its source is backend. -/
theorem mergeBackendList_conflict_resolution (psl : PslResolver) (s : Store) (L : String)
    (cs : List Candidate) (now : Nat) (pt : PatternType) (d : String) (hWF : WF s)
    (huser : ∃ e ∈ s.entries, entryKey e = (L, pt, d) ∧ e.source = some EntrySource.user)
    (hcand : ∃ c ∈ cs, candKey L c = some (L, pt, d) ∧ candidateValid psl c = true)
    (hok : (mergeBackendList psl s L cs now).2 = true) :
    ((mergeBackendList psl s L cs now).1.entries.filter
        (fun e => entryKey e = (L, pt, d))).length = 1 ∧
    ∀ e ∈ (mergeBackendList psl s L cs now).1.entries,
      entryKey e = (L, pt, d) → e.source = some EntrySource.backend := by
  obtain ⟨c, hc, hkey, hvalid⟩ := hcand
  -- unpack the candidate fields from its key and validity
  obtain ⟨hcd, hcp, hdne, hguard⟩ :
      c.domain = some d ∧ c.pattern_type = some pt ∧ d ≠ "" ∧
        ¬(pt = PatternType.domain ∧ isStrictRegisteredDomain psl d = false) := by
    unfold candKey at hkey
    unfold candidateValid at hvalid
    cases hcd : c.domain with
    | none => rw [hcd] at hkey; cases hkey
    | some d0 =>
        cases hcp : c.pattern_type with
        | none => rw [hcd, hcp] at hkey; cases hkey
        | some pt0 =>
            rw [hcd, hcp] at hkey hvalid
            simp only [] at hkey hvalid
            by_cases hd0 : d0 = ""
            · rw [if_pos hd0] at hkey; cases hkey
            · rw [if_neg hd0] at hkey
              have h1 : d0 = d ∧ pt0 = pt := by
                simp only [Option.some.injEq, Prod.mk.injEq] at hkey
                exact ⟨hkey.2.2, hkey.2.1⟩
              obtain ⟨rfl, rfl⟩ := h1
              refine ⟨rfl, rfl, hd0, ?_⟩
              intro ⟨hpt, hstr⟩
              rw [if_neg hd0, if_pos (by simp [hpt, hstr])] at hvalid
              cases hvalid
  -- the candidate contributes exactly this entry to the prepared batch
  have hmem : toBackendEntry L d pt c.metadata now ∈ backendNewEntries psl L cs now :=
    (mem_bne_iff psl L cs now _).mpr ⟨c, hc, d, pt, hcd, hcp, hdne, hguard, rfl⟩
  have hnonempty : (backendNewEntries psl L cs now).isEmpty = false :=
    ne_nil_isEmpty_false _ (List.ne_nil_of_mem hmem)
  -- the merge succeeded, so the bulk insert went through
  have h2 := resolve_del_no_candKey psl s L cs hWF c hc L pt d hkey
  have hbulkok : bulkAddOk (keysOf (mergeResolved psl s L cs))
      ((backendNewEntries psl L cs now).map (withTimestamps · now)) = true := by
    by_contra hfalse
    rw [Bool.not_eq_true] at hfalse
    unfold mergeBackendList at hok
    rw [mip_fail psl _ L cs now hnonempty hfalse] at hok
    cases hok
  have hr : mergeBackendList psl s L cs now
      = (insertAll (mergeResolved psl s L cs)
          (backendNewEntries psl L cs now) now, true) := by
    unfold mergeBackendList
    exact mip_ok psl _ L cs now hnonempty hbulkok
  rw [hr]
  simp only [insertAll_entries]
  obtain ⟨hnd, _⟩ := bulkAddOk_props _ _ hbulkok
  constructor
  · rw [List.filter_append]
    have hleft : (mergeResolved psl s L cs).entries.filter
        (fun e => decide (entryKey e = (L, pt, d))) = [] := by
      rw [List.filter_eq_nil_iff]
      intro a ha hka
      simp only [decide_eq_true_eq] at hka
      exact h2 a ha hka
    rw [hleft, List.nil_append]
    apply filter_key_length_one
    · rw [assignIds_map_key]
      rw [stamped_map_key] at hnd ⊢
      exact hnd
    · rw [assignIds_map_key, stamped_map_key]
      have : newKey (toBackendEntry L d pt c.metadata now) = (L, pt, d) := rfl
      exact this ▸ List.mem_map_of_mem newKey hmem
  · intro e he hke
    rcases List.mem_append.mp he with hl | hr2
    · exact absurd hke (h2 e hl)
    · exact (bne_after_stamp_source psl L cs now _ e hr2).2

/-- Witness for C1 at a concrete store: the user entry at the conflicting
key is replaced by exactly one backend entry. -/
theorem mergeBackendList_conflict_resolution_witness :
    ((mergeBackendList samplePsl
        { entries := [{ id := 0, list_name := "L", domain := "google.com",
                        pattern_type := PatternType.domain,
                        source := some EntrySource.user, metadata := {} }],
          nextId := 1 } "L"
        [{ domain := some "google.com",
           pattern_type := some PatternType.domain }] 4).1.entries.filter
        (fun e => entryKey e = ("L", PatternType.domain, "google.com"))).length = 1 ∧
    ∀ e ∈ (mergeBackendList samplePsl
        { entries := [{ id := 0, list_name := "L", domain := "google.com",
                        pattern_type := PatternType.domain,
                        source := some EntrySource.user, metadata := {} }],
          nextId := 1 } "L"
        [{ domain := some "google.com",
           pattern_type := some PatternType.domain }] 4).1.entries,
      entryKey e = ("L", PatternType.domain, "google.com") →
        e.source = some EntrySource.backend :=
  mergeBackendList_conflict_resolution samplePsl
    { entries := [{ id := 0, list_name := "L", domain := "google.com",
                    pattern_type := PatternType.domain,
                    source := some EntrySource.user, metadata := {} }],
      nextId := 1 } "L"
    [{ domain := some "google.com", pattern_type := some PatternType.domain }] 4
    PatternType.domain "google.com" (by decide)
    ⟨{ id := 0, list_name := "L", domain := "google.com",
       pattern_type := PatternType.domain, source := some EntrySource.user,
       metadata := {} }, by decide, rfl, rfl⟩
    ⟨{ domain := some "google.com", pattern_type := some PatternType.domain },
      by decide, by decide, by decide⟩
    (by decide)

lemma mergeBackendList_eq (psl : PslResolver) (s : Store) (L : String)
    (cs : List Candidate) (now : Nat) :
    mergeBackendList psl s L cs now
      = mergeInsertPhase psl (mergeResolved psl s L cs) L cs now := rfl

lemma deleteAll_backend_entries (t : Store) (L : String) :
    deleteAllEntriesInList t L (some .backend)
      = ⟨t.entries.filter (fun e => !(e.list_name = L && e.source = some EntrySource.backend)),
         t.nextId⟩ := rfl

lemma assign_backend_filter_nil (psl : PslResolver) (L : String) (cs : List Candidate)
    (now n : Nat) :
    (assignIds n ((backendNewEntries psl L cs now).map (withTimestamps · now))).filter
      (fun e => !(e.list_name = L && e.source = some EntrySource.backend)) = [] := by
  rw [List.filter_eq_nil_iff]
  intro e he
  obtain ⟨hln, hsrc⟩ := bne_after_stamp_source psl L cs now n e he
  simp [hln, hsrc]

/-- C9: merging the same batch twice in a row leaves the same observable
store — the same entries at the same keys with the same sources — as
merging once (ids and metadata timestamps aside, which is why the
observation projects them away). -/
theorem mergeBackendList_idempotent (psl : PslResolver) (s : Store) (L : String)
    (cs : List Candidate) (now₁ now₂ : Nat) (hWF : WF s) :
    (mergeBackendList psl (mergeBackendList psl s L cs now₁).1 L cs now₂).1.entries.map
        entryObs
      = (mergeBackendList psl s L cs now₁).1.entries.map entryObs := by
  have hA : ∀ e ∈ (mergeResolved psl s L cs).entries,
      ¬(e.list_name = L ∧ e.source = some EntrySource.backend) :=
    resolve_del_no_backend psl s L cs
  have hB : ∀ c ∈ cs, ∀ ln pt dd, candKey L c = some (ln, pt, dd) →
      ∀ e ∈ (mergeResolved psl s L cs).entries, entryKey e ≠ (ln, pt, dd) :=
    resolve_del_no_candKey psl s L cs hWF
  have hfind : ∀ t : Store, t.entries = (mergeResolved psl s L cs).entries →
      ∀ c ∈ cs, ∀ ln pt dd, candKey L c = some (ln, pt, dd) →
      findListEntryByPattern t ln pt dd = none := by
    intro t ht c hc ln pt dd hk
    rw [find_eq_none_iff, ht]
    exact hB c hc ln pt dd hk
  have hself : deleteAllEntriesInList (mergeResolved psl s L cs) L (some .backend)
      = mergeResolved psl s L cs := delete_eq_self _ L _ hA
  have hmrself : mergeResolved psl (mergeResolved psl s L cs) L cs
      = mergeResolved psl s L cs := by
    unfold mergeResolved
    conv_lhs => rw [show deleteAllEntriesInList
      (resolveConflicts (deleteAllEntriesInList s L (some .backend)) L cs) L
      (some .backend) = resolveConflicts (deleteAllEntriesInList s L (some .backend)) L cs
      from hself]
    exact resolve_eq_self L cs _ (fun c hc ln pt dd hk => hfind _ rfl c hc ln pt dd hk)
  cases hemp : (backendNewEntries psl L cs now₁).isEmpty with
  | true =>
      have hemp₂ : (backendNewEntries psl L cs now₂).isEmpty = true := by
        rw [bne_isEmpty_indep psl L cs now₂ now₁]
        exact hemp
      have hr1 : mergeBackendList psl s L cs now₁ = (mergeResolved psl s L cs, true) := by
        rw [mergeBackendList_eq]
        exact mip_empty psl _ L cs now₁ hemp
      rw [hr1, mergeBackendList_eq, hmrself, mip_empty psl _ L cs now₂ hemp₂]
  | false =>
      have hemp₂ : (backendNewEntries psl L cs now₂).isEmpty = false := by
        rw [bne_isEmpty_indep psl L cs now₂ now₁]
        exact hemp
      have hkeys : ((backendNewEntries psl L cs now₂).map (withTimestamps · now₂)).map newKey
          = ((backendNewEntries psl L cs now₁).map (withTimestamps · now₁)).map newKey := by
        rw [stamped_map_key, stamped_map_key]
        exact bne_map_key_indep psl L cs now₂ now₁
      cases hok : bulkAddOk (keysOf (mergeResolved psl s L cs))
          ((backendNewEntries psl L cs now₁).map (withTimestamps · now₁)) with
      | true =>
          have hr1 : mergeBackendList psl s L cs now₁
              = (insertAll (mergeResolved psl s L cs)
                  (backendNewEntries psl L cs now₁) now₁, true) := by
            rw [mergeBackendList_eq]
            exact mip_ok psl _ L cs now₁ hemp hok
          have ht1 : deleteAllEntriesInList (insertAll (mergeResolved psl s L cs)
                (backendNewEntries psl L cs now₁) now₁) L (some .backend)
              = ⟨(mergeResolved psl s L cs).entries,
                 (mergeResolved psl s L cs).nextId
                   + (backendNewEntries psl L cs now₁).length⟩ := by
            rw [deleteAll_backend_entries]
            have he : (insertAll (mergeResolved psl s L cs)
                (backendNewEntries psl L cs now₁) now₁).entries.filter
                  (fun e => !(e.list_name = L && e.source = some EntrySource.backend))
                = (mergeResolved psl s L cs).entries := by
              rw [insertAll_entries, List.filter_append,
                assign_backend_filter_nil psl L cs now₁, List.append_nil,
                List.filter_eq_self]
              intro e he
              simpa using not_and_or.mp (hA e he)
            rw [he]
            rfl
          have hres2 : resolveConflicts
              (⟨(mergeResolved psl s L cs).entries,
                (mergeResolved psl s L cs).nextId
                  + (backendNewEntries psl L cs now₁).length⟩ : Store) L cs
              = ⟨(mergeResolved psl s L cs).entries,
                 (mergeResolved psl s L cs).nextId
                   + (backendNewEntries psl L cs now₁).length⟩ :=
            resolve_eq_self L cs _ (fun c hc ln pt dd hk => hfind _ rfl c hc ln pt dd hk)
          have hok₂ : bulkAddOk
              (keysOf (⟨(mergeResolved psl s L cs).entries,
                (mergeResolved psl s L cs).nextId
                  + (backendNewEntries psl L cs now₁).length⟩ : Store))
              ((backendNewEntries psl L cs now₂).map (withTimestamps · now₂)) = true := by
            have h1 : keysOf (⟨(mergeResolved psl s L cs).entries,
                (mergeResolved psl s L cs).nextId
                  + (backendNewEntries psl L cs now₁).length⟩ : Store)
                = keysOf (mergeResolved psl s L cs) := rfl
            rw [h1, bulkAddOk_ext _ _ hkeys]
            exact hok
          have hr2 : mergeBackendList psl (insertAll (mergeResolved psl s L cs)
                (backendNewEntries psl L cs now₁) now₁) L cs now₂
              = (insertAll (⟨(mergeResolved psl s L cs).entries,
                  (mergeResolved psl s L cs).nextId
                    + (backendNewEntries psl L cs now₁).length⟩ : Store)
                  (backendNewEntries psl L cs now₂) now₂, true) := by
            rw [mergeBackendList_eq]
            have hmr : mergeResolved psl (insertAll (mergeResolved psl s L cs)
                  (backendNewEntries psl L cs now₁) now₁) L cs
                = ⟨(mergeResolved psl s L cs).entries,
                   (mergeResolved psl s L cs).nextId
                     + (backendNewEntries psl L cs now₁).length⟩ := by
              unfold mergeResolved
              conv_lhs => rw [show deleteAllEntriesInList (insertAll
                (resolveConflicts (deleteAllEntriesInList s L (some .backend)) L cs)
                (backendNewEntries psl L cs now₁) now₁) L (some .backend) = _ from ht1]
              exact hres2
            rw [hmr]
            exact mip_ok psl _ L cs now₂ hemp₂ hok₂
          rw [hr1, hr2]
          simp only [insertAll_entries, List.map_append]
          congr 1
          rw [assignIds_map_obs, assignIds_map_obs, stamped_map_obs, stamped_map_obs]
          exact bne_map_obs_indep psl L cs now₂ now₁
      | false =>
          have hr1 : mergeBackendList psl s L cs now₁ = (mergeResolved psl s L cs, false) := by
            rw [mergeBackendList_eq]
            exact mip_fail psl _ L cs now₁ hemp hok
          have hok₂ : bulkAddOk (keysOf (mergeResolved psl s L cs))
              ((backendNewEntries psl L cs now₂).map (withTimestamps · now₂)) = false := by
            rw [bulkAddOk_ext _ _ hkeys]
            exact hok
          rw [hr1, mergeBackendList_eq, hmrself, mip_fail psl _ L cs now₂ hemp₂ hok₂]

/-- Witness for C9 at a concrete store and batch. -/
theorem mergeBackendList_idempotent_witness :
    (mergeBackendList samplePsl
        (mergeBackendList samplePsl
          { entries := [{ id := 0, list_name := "L", domain := "google.com",
                          pattern_type := PatternType.domain,
                          source := some EntrySource.user, metadata := {} }],
            nextId := 1 } "L"
          [{ domain := some "google.com",
             pattern_type := some PatternType.domain }] 4).1 "L"
        [{ domain := some "google.com",
           pattern_type := some PatternType.domain }] 9).1.entries.map entryObs
      = (mergeBackendList samplePsl
          { entries := [{ id := 0, list_name := "L", domain := "google.com",
                          pattern_type := PatternType.domain,
                          source := some EntrySource.user, metadata := {} }],
            nextId := 1 } "L"
          [{ domain := some "google.com",
             pattern_type := some PatternType.domain }] 4).1.entries.map entryObs :=
  mergeBackendList_idempotent samplePsl
    { entries := [{ id := 0, list_name := "L", domain := "google.com",
                    pattern_type := PatternType.domain,
                    source := some EntrySource.user, metadata := {} }],
      nextId := 1 } "L"
    [{ domain := some "google.com", pattern_type := some PatternType.domain }] 4 9
    (by decide)

end WebmunkLists
